import Mathlib

/-!
The RESP codec (`pkg/protocol/resp.go`)

A shallow embedding of the encoder `Serialize`, the decoder `Deserialize` and
their two read helpers, together with the Go standard-library operations they
call (`fmt.Sprintf` with `%d`, `strconv.ParseInt`, `strconv.Atoi`,
`strings.TrimRight`, `bufio.Reader.ReadByte`, `bufio.Reader.ReadString`,
`io.ReadFull`, `make`, slicing).

Conventions.

* A Go `string` is a sequence of bytes: `List Byte`.  `len` is `List.length`.
* A `*bufio.Reader` over a finite stream is the list of bytes not yet read;
  every read returns the reader that is left.
* `int64` and `int` (64 bits wide) are `Int`, with `wrapInt64` wherever the
  code adds.
* A Go result pair `(x, err)` is a Lean pair whose second component is
  `Option Failure` (`none` is a `nil` error); a `*RESPValue` is an
  `Option RESPValue` (`none` is the `nil` pointer).
* A run-time panic is `Exec.panic`.
-/

namespace Resp

/-- Go `byte`. -/
abbrev Byte := UInt8

/-- The unread remainder of the stream behind a `*bufio.Reader`. -/
abbrev Reader := List Byte

/-- The struct `RESPValue`.  The field `Type` is spelled `Typ`. -/
inductive RESPValue where
  | mk (Typ : Byte) (Str : List Byte) (Num : Int) (Array : List RESPValue) (IsNull : Bool)

namespace RESPValue

/-- Field `Type`. -/
def Typ : RESPValue → Byte
  | mk t _ _ _ _ => t

/-- Field `Str`. -/
def Str : RESPValue → List Byte
  | mk _ s _ _ _ => s

/-- Field `Num`. -/
def Num : RESPValue → Int
  | mk _ _ n _ _ => n

/-- Field `Array`. -/
def Array : RESPValue → List RESPValue
  | mk _ _ _ a _ => a

/-- Field `IsNull`. -/
def IsNull : RESPValue → Bool
  | mk _ _ _ _ b => b

end RESPValue

/-- The constant `SimpleString = '+'`. -/
def SimpleString : Byte := 43
/-- The constant `Error = '-'`. -/
def Error : Byte := 45
/-- The constant `Integer = ':'`. -/
def Integer : Byte := 58
/-- The constant `BulkString = '$'`. -/
def BulkString : Byte := 36
/-- The constant `Array = '*'`. -/
def Array : Byte := 42
/-- The constant `CRLF`, the two bytes CR LF. -/
def CRLF : List Byte := [13, 10]

/-- The errors the decoder can return. -/
inductive Failure where
  /-- `io.EOF` -/
  | EOF
  /-- `io.ErrUnexpectedEOF` -/
  | ErrUnexpectedEOF
  /-- A `*strconv.NumError` wrapping `strconv.ErrSyntax`. -/
  | ErrSyntax
  /-- A `*strconv.NumError` wrapping `strconv.ErrRange`. -/
  | ErrRange
  /-- The error `errors.New("invalid resp type found")`. -/
  | InvalidType
  deriving DecidableEq, Repr

/-- An I/O failure: the stream ended. -/
def Failure.isIO : Failure → Bool
  | .EOF | .ErrUnexpectedEOF => true
  | _ => false

/-- A protocol failure: the bytes were read but their content is invalid. -/
def Failure.isProtocol : Failure → Bool
  | .ErrSyntax | .ErrRange | .InvalidType => true
  | _ => false

/-- A Go call either returns or panics. -/
inductive Exec (α : Type) where
  | ret (a : α)
  | panic
  deriving DecidableEq, Repr

/-! ## Standard-library operations -/

/-- Two's-complement wrap-around of 64-bit signed arithmetic. -/
def wrapInt64 (x : Int) : Int := (x + 2 ^ 63) % 2 ^ 64 - 2 ^ 63

/-- The digit loop of `fmt` and `strconv`: peel decimal digits off `u` from the
right, `'0' + u % 10` each, until `u < 10`.  `fuel` bounds the iterations. -/
def fmtDigits : Nat → Nat → List Byte → List Byte
  | 0, _, acc => acc
  | fuel + 1, u, acc =>
    if u < 10 then UInt8.ofNat (48 + u) :: acc
    else fmtDigits fuel (u / 10) (UInt8.ofNat (48 + u % 10) :: acc)

/-- The decimal digits of an unsigned number. -/
def formatUint (u : Nat) : List Byte := fmtDigits (u + 1) u []

/-- The verb `%d` of `fmt.Sprintf` on a signed integer: a `'-'` for a negative
number, then the digits of the magnitude. -/
def formatInt (n : Int) : List Byte :=
  if n < 0 then 45 :: formatUint n.natAbs else formatUint n.natAbs

/-- The loop of `strconv.ParseUint(s, 10, 64)` over the bytes of `s`, `n` the
number accumulated so far.  Returns the pair `(value, err)`. -/
def parseUintLoop : List Byte → Nat → Nat × Option Failure
  | [], n => (n, none)
  | c :: cs, n =>
    if 48 ≤ c.toNat ∧ c.toNat ≤ 57 then
      let d := c.toNat - 48
      if n ≥ (2 ^ 64 - 1) / 10 + 1 then (2 ^ 64 - 1, some .ErrRange)
      else
        let n1 := n * 10 + d
        if n1 > 2 ^ 64 - 1 then (2 ^ 64 - 1, some .ErrRange)
        else parseUintLoop cs n1
    else (0, some .ErrSyntax)

/-- `strconv.ParseUint(s, 10, 64)`. -/
def ParseUint (s : List Byte) : Nat × Option Failure :=
  if s = [] then (0, some .ErrSyntax) else parseUintLoop s 0

/-- The second half of `strconv.ParseInt(s, 10, 64)`, after the sign is picked
off and `ParseUint` has returned `(un, err)`: a syntax error is passed on, and
the magnitude is checked against `2^63` (a range error of `ParseUint` comes
with the largest magnitude and fails this check). -/
def parseIntRange (neg : Bool) : Nat × Option Failure → Int × Option Failure
  | (_, some .ErrSyntax) => (0, some .ErrSyntax)
  | (un, _) =>
    if neg = false ∧ un ≥ 2 ^ 63 then (2 ^ 63 - 1, some .ErrRange)
    else if neg = true ∧ un > 2 ^ 63 then (-(2 ^ 63), some .ErrRange)
    else (if neg then -(un : Int) else (un : Int), none)

/-- `strconv.ParseInt(s, 10, 64)`: an optional sign, then `ParseUint`, then the
range check against `2^63`. -/
def ParseInt (s : List Byte) : Int × Option Failure :=
  match s with
  | [] => (0, some .ErrSyntax)
  | c :: cs =>
    if c = 43 then parseIntRange false (ParseUint cs)
    else if c = 45 then parseIntRange true (ParseUint cs)
    else parseIntRange false (ParseUint s)

/-- `strconv.Atoi(s)`, which is `ParseInt(s, 10, 0)` converted to `int`; `int`
is 64 bits wide. -/
def Atoi (s : List Byte) : Int × Option Failure := ParseInt s

/-- `strings.TrimRight(s, cutset)` for a cutset of ASCII bytes: drop trailing
bytes for as long as they belong to `cutset`. -/
def TrimRight (s cutset : List Byte) : List Byte :=
  s.rdropWhile (fun b => cutset.contains b)

/-- `bufio.Reader.ReadByte`. -/
def ReadByte : Reader → (Byte × Option Failure) × Reader
  | [] => ((0, some .EOF), [])
  | b :: r => ((b, none), r)

/-- `bufio.Reader.ReadString(delim)`: the bytes up to and including the first
`delim`; when the stream ends first, the bytes read so far and `io.EOF`. -/
def ReadString (delim : Byte) : Reader → (List Byte × Option Failure) × Reader
  | [] => (([], some .EOF), [])
  | b :: r =>
    if b = delim then (([b], none), r)
    else
      let res := ReadString delim r
      ((b :: res.1.1, res.1.2), res.2)

/-- `io.ReadFull(reader, buf)` for a zeroed buffer of `n` bytes: returns the
buffer afterwards and the error.  An empty buffer reads nothing; no byte
at all is `io.EOF`, some but fewer than `n` is `io.ErrUnexpectedEOF`. -/
def ReadFull (r : Reader) (n : Nat) : (List Byte × Option Failure) × Reader :=
  if n = 0 then (([], none), r)
  else if n ≤ r.length then ((r.take n, none), r.drop n)
  else if r = [] then ((List.replicate n 0, some .EOF), [])
  else ((r ++ List.replicate (n - r.length) 0, some .ErrUnexpectedEOF), [])

/-! ## The codec -/

mutual
/-- The method `Serialize`. -/
def Serialize : RESPValue → List Byte
  | .mk typ str num array isNull =>
    if typ = SimpleString then [43] ++ str ++ [13, 10]
    else if typ = Error then [45, 69, 114, 114, 111, 114, 32, 109, 101, 115, 115, 97, 103, 101, 13, 10]
    else if typ = Integer then [58] ++ formatInt num ++ [13, 10]
    else if typ = BulkString then
      if isNull then [36, 45, 49, 13, 10]
      else [36] ++ formatInt str.length ++ [13, 10] ++ str ++ [13, 10]
    else if typ = Array then
      if isNull then [42, 45, 49, 13, 10]
      else [42] ++ formatInt array.length ++ [13, 10] ++ serializeItems array
    else []
/-- The loop `for _, item := range v.Array` of `Serialize`: the encodings of the
elements, appended in order. -/
def serializeItems : List RESPValue → List Byte
  | [] => []
  | item :: items => Serialize item ++ serializeItems items
end

/-- The function `readLine`. -/
def readLine (reader : Reader) : (List Byte × Option Failure) × Reader :=
  match ReadString 10 reader with
  | ((_, some err), r) => (([], some err), r)
  | ((line, none), r) => ((TrimRight line CRLF, none), r)

/-- The function `readBulkString`.  `make([]byte, length+2)` panics on a negative
size, and `buf[:length]` panics unless `0 ≤ length ≤ len(buf)`.  The upper
limit of `make` is not part of the model: for a size that the allocator
refuses the code panics or stops where this definition goes on to read. -/
def readBulkString (reader : Reader) (length : Int) :
    Exec ((List Byte × Option Failure) × Reader) :=
  let size := wrapInt64 (length + 2)
  if size < 0 then .panic
  else
    match ReadFull reader size.toNat with
    | ((_, some err), r) => .ret (([], some err), r)
    | ((buf, none), r) =>
      if length < 0 ∨ length > size then .panic
      else .ret ((buf.take length.toNat, none), r)

/-- The function `Deserialize`.  The result is the returned pair
`(*RESPValue, error)` and the reader that is left, or a panic. -/
def Deserialize (reader : Reader) :
    Exec ((Option RESPValue × Option Failure) × Reader) :=
  match ReadByte reader with
  | ((_, some err), r) => .ret ((none, some err), r)
  | ((typ, none), r) =>
    if typ = SimpleString ∨ typ = Error then
      match readLine r with
      | ((_, some err), r1) => .ret ((none, some err), r1)
      | ((str, none), r1) => .ret ((some (.mk typ str 0 [] false), none), r1)
    else if typ = Integer then
      match readLine r with
      | ((_, some err), r1) => .ret ((none, some err), r1)
      | ((line, none), r1) =>
        match ParseInt line with
        | (_, some err) => .ret ((none, some err), r1)
        | (num, none) => .ret ((some (.mk typ [] num [] false), none), r1)
    else if typ = BulkString then
      match readLine r with
      | ((_, some err), r1) => .ret ((none, some err), r1)
      | ((line, none), r1) =>
        match Atoi line with
        | (_, some err) => .ret ((none, some err), r1)
        | (len, none) =>
          if len = -1 then .ret ((some (.mk typ [] 0 [] true), none), r1)
          else
            match readBulkString r1 len with
            | .panic => .panic
            | .ret ((str, _), r2) => .ret ((some (.mk typ str 0 [] false), none), r2)
    else .ret ((none, some .InvalidType), r)

/-! ## Definitions used to state the properties -/

/-- The byte of the decimal digit `d`. -/
def digitByte (d : Nat) : Byte := UInt8.ofNat (48 + d)

/-- The byte `c` is one of `'0'`..`'9'`. -/
def isDigit (c : Byte) : Prop := 48 ≤ c.toNat ∧ c.toNat ≤ 57

instance (c : Byte) : Decidable (isDigit c) := by unfold isDigit; infer_instance

/-- The number a string of decimal digits denotes, most significant digit first. -/
def decimalValue (ds : List Byte) : Nat :=
  ds.foldl (fun acc c => acc * 10 + (c.toNat - 48)) 0

/-- The number denoted by the digits `ds` written after a number `n`. -/
def decimalFrom (n : Nat) (ds : List Byte) : Nat :=
  ds.foldl (fun acc c => acc * 10 + (c.toNat - 48)) n

/-- The string `s` is the signed base-10 representation of `n` without leading
zeros: a `'-'` exactly when `n` is negative, then the digits `ds` of the
magnitude, most significant first, the first one `0` only for the number zero. -/
def IsDecimalOf (s : List Byte) (n : Int) : Prop :=
  ∃ ds : List Nat, ds ≠ [] ∧ (∀ d ∈ ds, d < 10) ∧ (ds.head? = some 0 → ds = [0]) ∧
    Nat.ofDigits 10 ds.reverse = n.natAbs ∧
    s = (if n < 0 then [45] else []) ++ ds.map digitByte

/-- The string `line` is an optional sign `'+'` or `'-'` followed by at least one
decimal digit, and `n` is the number it denotes. -/
def IsSignedDecimal (line : List Byte) (n : Int) : Prop :=
  ∃ sign ds : List Byte, line = sign ++ ds ∧ (sign = [] ∨ sign = [43] ∨ sign = [45]) ∧
    ds ≠ [] ∧ (∀ c ∈ ds, isDigit c) ∧
    n = if sign = [45] then -(decimalValue ds : Int) else (decimalValue ds : Int)

/-- The number of decimal digits of `n`; the number zero has one. -/
def numDigits (n : Nat) : Nat := if n = 0 then 1 else (Nat.digits 10 n).length

/-- The number `n` is a value of the type `int64`. -/
def IsInt64 (n : Int) : Prop := -(2 ^ 63) ≤ n ∧ n < 2 ^ 63

instance (n : Int) : Decidable (IsInt64 n) := by unfold IsInt64; infer_instance

/-- The bytes `s` make a Go `string`: the length is a value of the type `int`. -/
def IsGoString (s : List Byte) : Prop := (s.length : Int) < 2 ^ 63

instance (s : List Byte) : Decidable (IsGoString s) := by unfold IsGoString; infer_instance

/-- The value `w` has the tag of `v` and the payload of `v`: `Str` for the tags
SimpleString, Error and BulkString, `Num` for Integer, the elements for Array. -/
def SamePayload (v w : RESPValue) : Prop :=
  w.Typ = v.Typ ∧
  (v.Typ = SimpleString ∨ v.Typ = Error ∨ v.Typ = BulkString → w.Str = v.Str) ∧
  (v.Typ = Integer → w.Num = v.Num) ∧
  (v.Typ = Array → w.Array = v.Array)

/-- Decoding the encoding of `v` succeeds with the tag and the payload of `v`. -/
def RoundTrips (v : RESPValue) : Prop :=
  ∃ w r, Deserialize (Serialize v) = .ret ((some w, none), r) ∧ SamePayload v w

mutual
/-- The value is built only from Integer, BulkString (null or not), SimpleString
with a text free of CR and LF, and Array (null or not) whose elements are
again such values. -/
def WellFormed : RESPValue → Prop
  | .mk typ str _ arr _ =>
    typ = Integer ∨ typ = BulkString ∨
    (typ = SimpleString ∧ (13 : Byte) ∉ str ∧ (10 : Byte) ∉ str) ∨
    (typ = Array ∧ WellFormedList arr)
/-- Every value of the list is well formed. -/
def WellFormedList : List RESPValue → Prop
  | [] => True
  | item :: items => WellFormed item ∧ WellFormedList items
end

mutual
/-- The two values have the same tag and are equal on the fields meaningful for
that tag: `Str` for SimpleString, `Num` for Integer, `IsNull` and, when not
null, `Str` for BulkString, `IsNull` and, when not null, the elements one by
one for Array. -/
def SameFields : RESPValue → RESPValue → Prop
  | .mk t1 s1 n1 a1 b1, .mk t2 s2 n2 a2 b2 =>
    t1 = t2 ∧
    (t1 = SimpleString → s1 = s2) ∧
    (t1 = Integer → n1 = n2) ∧
    (t1 = BulkString → b1 = b2 ∧ (b1 = false → s1 = s2)) ∧
    (t1 = Array → b1 = b2 ∧ (b1 = false → SameFieldsList a1 a2))
/-- The two lists have the same length and their values are pairwise the same on
the meaningful fields. -/
def SameFieldsList : List RESPValue → List RESPValue → Prop
  | [], [] => True
  | x :: xs, y :: ys => SameFields x y ∧ SameFieldsList xs ys
  | [], _ :: _ => False
  | _ :: _, [] => False
end

/-! ## Bytes and decimal digits -/

theorem digitByte_toNat {d : Nat} (h : d < 10) : (digitByte d).toNat = 48 + d := by
  unfold digitByte
  exact UInt8.toNat_ofNat_of_lt (by simp [UInt8.size]; omega)

theorem byte_eq_iff (a b : Byte) : a = b ↔ a.toNat = b.toNat :=
  ⟨fun h => by rw [h], UInt8.toNat.inj⟩

theorem isDigit_digitByte {d : Nat} (h : d < 10) : isDigit (digitByte d) := by
  unfold isDigit
  rw [digitByte_toNat h]
  omega

theorem isDigit_ne {c : Byte} (h : isDigit c) :
    c ≠ 10 ∧ c ≠ 13 ∧ c ≠ 43 ∧ c ≠ 45 := by
  unfold isDigit at h
  refine ⟨?_, ?_, ?_, ?_⟩ <;> intro hc <;> rw [hc] at h <;> revert h <;> decide

theorem fmtDigits_eq (u : Nat) : ∀ (fuel : Nat) (acc : List Byte), 0 < u → u < fuel →
    fmtDigits fuel u acc = (Nat.digits 10 u).reverse.map digitByte ++ acc := by
  induction u using Nat.strong_induction_on with
  | _ u ih =>
    intro fuel acc hpos hfuel
    obtain ⟨k, rfl⟩ : ∃ k, fuel = k + 1 := ⟨fuel - 1, by omega⟩
    by_cases hu : u < 10
    · simp [fmtDigits, hu, Nat.digits_of_lt 10 u (by omega) hu, digitByte]
    · have hd : Nat.digits 10 u = (u % 10) :: Nat.digits 10 (u / 10) :=
        Nat.digits_def' (by norm_num) hpos
      have := ih (u / 10) (by omega) k (UInt8.ofNat (48 + u % 10) :: acc) (by omega) (by omega)
      simp [fmtDigits, hu, hd, this, digitByte]

theorem formatUint_zero : formatUint 0 = [48] := rfl

theorem formatUint_pos {u : Nat} (h : 0 < u) :
    formatUint u = (Nat.digits 10 u).reverse.map digitByte := by
  simpa using fmtDigits_eq u (u + 1) [] h (by omega)

/-- The digits of a number, as `formatUint` writes them: one `0` for zero. -/
theorem formatUint_eq_map (u : Nat) :
    formatUint u = (if u = 0 then [0] else (Nat.digits 10 u).reverse).map digitByte := by
  by_cases h : u = 0
  · subst h; rfl
  · simp [h, formatUint_pos (Nat.pos_of_ne_zero h)]

theorem formatUint_length (u : Nat) : (formatUint u).length = numDigits u := by
  rw [formatUint_eq_map]
  unfold numDigits
  split <;> simp

theorem formatUint_isDigit (u : Nat) : ∀ c ∈ formatUint u, isDigit c := by
  intro c hc
  rw [formatUint_eq_map] at hc
  obtain ⟨d, hd, rfl⟩ := List.mem_map.1 hc
  apply isDigit_digitByte
  split at hd
  · simp at hd; omega
  · exact Nat.digits_lt_base (by norm_num) (List.mem_reverse.1 hd)

theorem formatUint_ne_nil (u : Nat) : formatUint u ≠ [] := by
  rw [formatUint_eq_map]
  split
  · simp
  · rename_i hu
    simpa using (Nat.digits_ne_nil_iff_ne_zero (b := 10)).2 hu

/-! ## Parsing numbers -/

theorem decimalFrom_nil (n : Nat) : decimalFrom n [] = n := rfl

theorem decimalFrom_cons (n : Nat) (c : Byte) (cs : List Byte) :
    decimalFrom n (c :: cs) = decimalFrom (n * 10 + (c.toNat - 48)) cs := rfl

theorem decimalFrom_zero (ds : List Byte) : decimalFrom 0 ds = decimalValue ds := rfl

theorem decimalFrom_append (n : Nat) (xs ys : List Byte) :
    decimalFrom n (xs ++ ys) = decimalFrom (decimalFrom n xs) ys := by
  simp [decimalFrom, List.foldl_append]

theorem le_decimalFrom (ds : List Byte) : ∀ n, n ≤ decimalFrom n ds := by
  induction ds with
  | nil => intro n; exact Nat.le_refl _
  | cons c cs ih =>
    intro n
    rw [decimalFrom_cons]
    have := ih (n * 10 + (c.toNat - 48))
    omega

/-- What the loop of `ParseUint` returns: the number when every byte is a digit
and the number fits 64 bits; the largest number and a range error when the
number read so far stops fitting; a syntax error at the first byte that is
not a digit. -/
theorem parseUintLoop_cases (ds : List Byte) : ∀ n, n ≤ 2 ^ 64 - 1 →
    ((∀ c ∈ ds, isDigit c) ∧ decimalFrom n ds ≤ 2 ^ 64 - 1 ∧
        parseUintLoop ds n = (decimalFrom n ds, none)) ∨
    (¬ ((∀ c ∈ ds, isDigit c) ∧ decimalFrom n ds ≤ 2 ^ 64 - 1) ∧
        parseUintLoop ds n = (2 ^ 64 - 1, some .ErrRange)) ∨
    (¬ (∀ c ∈ ds, isDigit c) ∧ parseUintLoop ds n = (0, some .ErrSyntax)) := by
  induction ds with
  | nil =>
    intro n hn
    left
    exact ⟨by simp, hn, rfl⟩
  | cons c cs ih =>
    intro n hn
    by_cases hc : isDigit c
    · have hc1 : 48 ≤ c.toNat ∧ c.toNat ≤ 57 := hc
      by_cases h1 : 1844674407370955162 ≤ n
      · right; left
        refine ⟨?_, by simp [parseUintLoop, hc1, h1]⟩
        rintro ⟨-, hle⟩
        have := le_decimalFrom cs (n * 10 + (c.toNat - 48))
        rw [decimalFrom_cons] at hle
        omega
      · by_cases h2 : 18446744073709551615 < n * 10 + (c.toNat - 48)
        · right; left
          refine ⟨?_, by simp [parseUintLoop, hc1, h1, h2]⟩
          rintro ⟨-, hle⟩
          have := le_decimalFrom cs (n * 10 + (c.toNat - 48))
          rw [decimalFrom_cons] at hle
          omega
        · have hstep : parseUintLoop (c :: cs) n =
              parseUintLoop cs (n * 10 + (c.toNat - 48)) := by
            simp [parseUintLoop, hc1, h1, h2]
          rw [hstep, decimalFrom_cons]
          rcases ih (n * 10 + (c.toNat - 48)) (by omega) with ⟨ha, hb, hr⟩ | ⟨hn, hr⟩ | ⟨hn, hr⟩
          · left
            exact ⟨by simpa [hc] using ha, hb, hr⟩
          · right; left
            exact ⟨fun h => hn ⟨fun x hx => h.1 x (List.mem_cons_of_mem _ hx), h.2⟩, hr⟩
          · right; right
            exact ⟨fun h => hn (fun x hx => h x (List.mem_cons_of_mem _ hx)), hr⟩
    · right; right
      have hc1 : ¬ (48 ≤ c.toNat ∧ c.toNat ≤ 57) := hc
      exact ⟨fun h => hc (h c (List.mem_cons_self _ _)), by simp [parseUintLoop, hc1]⟩

theorem ParseUint_cases (s : List Byte) :
    (s ≠ [] ∧ (∀ c ∈ s, isDigit c) ∧ decimalValue s ≤ 2 ^ 64 - 1 ∧
        ParseUint s = (decimalValue s, none)) ∨
    (¬ ((∀ c ∈ s, isDigit c) ∧ decimalValue s ≤ 2 ^ 64 - 1) ∧
        ParseUint s = (2 ^ 64 - 1, some .ErrRange)) ∨
    (¬ (s ≠ [] ∧ ∀ c ∈ s, isDigit c) ∧ ParseUint s = (0, some .ErrSyntax)) := by
  by_cases hs : s = []
  · right; right
    subst hs
    exact ⟨by simp, rfl⟩
  · have hP : ParseUint s = parseUintLoop s 0 := by simp [ParseUint, hs]
    rw [hP, ← decimalFrom_zero]
    rcases parseUintLoop_cases s 0 (by norm_num) with ⟨ha, hb, hr⟩ | ⟨hn, hr⟩ | ⟨hn, hr⟩
    · exact Or.inl ⟨hs, ha, hb, hr⟩
    · exact Or.inr (Or.inl ⟨hn, hr⟩)
    · exact Or.inr (Or.inr ⟨fun h => hn h.2, hr⟩)

theorem isSignedDecimal_nil (n : Int) : ¬ IsSignedDecimal [] n := by
  rintro ⟨sign, ds, hl, -, hne, -, -⟩
  have := List.append_eq_nil.1 hl.symm
  exact hne this.2

theorem isSignedDecimal_cons (c : Byte) (cs : List Byte) (n : Int) :
    IsSignedDecimal (c :: cs) n ↔
      (c = 43 ∧ cs ≠ [] ∧ (∀ x ∈ cs, isDigit x) ∧ n = (decimalValue cs : Int)) ∨
      (c = 45 ∧ cs ≠ [] ∧ (∀ x ∈ cs, isDigit x) ∧ n = -(decimalValue cs : Int)) ∨
      (isDigit c ∧ (∀ x ∈ cs, isDigit x) ∧ n = (decimalValue (c :: cs) : Int)) := by
  constructor
  · rintro ⟨sign, ds, hl, hs, hne, hd, hn⟩
    rcases hs with rfl | rfl | rfl
    · right; right
      simp only [List.nil_append] at hl
      subst hl
      refine ⟨hd c (List.mem_cons_self _ _), fun x hx => hd x (List.mem_cons_of_mem _ hx), ?_⟩
      simpa using hn
    · left
      simp only [List.singleton_append, List.cons.injEq] at hl
      obtain ⟨rfl, rfl⟩ := hl
      exact ⟨rfl, hne, hd, by simpa using hn⟩
    · right; left
      simp only [List.singleton_append, List.cons.injEq] at hl
      obtain ⟨rfl, rfl⟩ := hl
      exact ⟨rfl, hne, hd, by simpa using hn⟩
  · rintro (⟨rfl, hne, hd, hn⟩ | ⟨rfl, hne, hd, hn⟩ | ⟨hc, hd, hn⟩)
    · exact ⟨[43], cs, rfl, Or.inr (Or.inl rfl), hne, hd, by simpa using hn⟩
    · exact ⟨[45], cs, rfl, Or.inr (Or.inr rfl), hne, hd, by simpa using hn⟩
    · refine ⟨[], c :: cs, rfl, Or.inl rfl, by simp, ?_, by simpa using hn⟩
      intro x hx
      rcases List.mem_cons.1 hx with rfl | hx
      · exact hc
      · exact hd x hx

/-- The range check of `ParseInt`, on what `ParseUint` returns for `s`: the
signed number when `s` is a non-empty string of digits within range, and a
syntax or range error otherwise. -/
theorem parseIntRange_cases (neg : Bool) (s : List Byte) :
    (s ≠ [] ∧ (∀ c ∈ s, isDigit c) ∧
      decimalValue s < (if neg then 2 ^ 63 + 1 else 2 ^ 63) ∧
      parseIntRange neg (ParseUint s) =
        (if neg then -(decimalValue s : Int) else (decimalValue s : Int), none)) ∨
    (¬ (s ≠ [] ∧ (∀ c ∈ s, isDigit c) ∧
        decimalValue s < (if neg then 2 ^ 63 + 1 else 2 ^ 63)) ∧
      ∃ m e, parseIntRange neg (ParseUint s) = (m, some e) ∧
        (e = .ErrSyntax ∨ e = .ErrRange)) := by
  rcases ParseUint_cases s with ⟨hs, ha, hb, hr⟩ | ⟨hn, hr⟩ | ⟨hn, hr⟩
  · rw [hr]
    by_cases hv : decimalValue s < (if neg then 2 ^ 63 + 1 else 2 ^ 63)
    · left
      refine ⟨hs, ha, hv, ?_⟩
      cases neg
      · simp only [Bool.false_eq_true, if_false] at hv
        simp [parseIntRange]
        omega
      · simp only [if_true] at hv
        simp [parseIntRange]
        omega
    · right
      refine ⟨fun h => hv h.2.2, ?_⟩
      cases neg
      · simp only [Bool.false_eq_true, if_false] at hv
        exact ⟨2 ^ 63 - 1, .ErrRange, by simp [parseIntRange]; omega, Or.inr rfl⟩
      · simp only [if_true] at hv
        exact ⟨-(2 ^ 63), .ErrRange, by simp [parseIntRange]; omega, Or.inr rfl⟩
  · right
    rw [hr]
    refine ⟨fun h => hn ⟨h.2.1, ?_⟩, ?_⟩
    · have := h.2.2
      split at this <;> omega
    · cases neg
      · exact ⟨2 ^ 63 - 1, .ErrRange, by simp [parseIntRange], Or.inr rfl⟩
      · exact ⟨-(2 ^ 63), .ErrRange, by simp [parseIntRange], Or.inr rfl⟩
  · right
    rw [hr]
    exact ⟨fun h => hn ⟨h.1, h.2.1⟩, 0, .ErrSyntax, rfl, Or.inl rfl⟩

theorem not_isDigit_sign : ¬ isDigit 43 ∧ ¬ isDigit 45 := by
  constructor <;> decide

/-- `ParseInt` succeeds exactly on an optionally signed, non-empty string of
decimal digits whose number fits `int64`, and returns that number; on every
other string it returns a syntax or a range error. -/
theorem ParseInt_spec (line : List Byte) :
    (∃ n : Int, IsSignedDecimal line n ∧ -(2 ^ 63) ≤ n ∧ n < 2 ^ 63 ∧
        ParseInt line = (n, none)) ∨
    ((∀ n : Int, IsSignedDecimal line n → ¬ (-(2 ^ 63) ≤ n ∧ n < 2 ^ 63)) ∧
      ∃ m e, ParseInt line = (m, some e) ∧ (e = .ErrSyntax ∨ e = .ErrRange)) := by
  cases line with
  | nil =>
    right
    exact ⟨fun n h => absurd h (isSignedDecimal_nil n), 0, .ErrSyntax, rfl, Or.inl rfl⟩
  | cons c cs =>
    by_cases h43 : c = 43
    · subst h43
      have hP : ParseInt (43 :: cs) = parseIntRange false (ParseUint cs) := by simp [ParseInt]
      rw [hP]
      rcases parseIntRange_cases false cs with ⟨hs, ha, hv, hr⟩ | ⟨hn, hr⟩
      · left
        simp only [Bool.false_eq_true, if_false] at hv hr
        refine ⟨(decimalValue cs : Int), ?_, by omega, by omega, hr⟩
        exact (isSignedDecimal_cons _ _ _).2 (Or.inl ⟨rfl, hs, ha, rfl⟩)
      · right
        refine ⟨?_, hr⟩
        intro n hdec hrange
        simp only [Bool.false_eq_true, if_false] at hn
        rcases (isSignedDecimal_cons _ _ _).1 hdec with ⟨-, hs, ha, rfl⟩ | ⟨h, -⟩ | ⟨h, -⟩
        · exact hn ⟨hs, ha, by omega⟩
        · exact absurd h (by decide)
        · exact not_isDigit_sign.1 h
    · by_cases h45 : c = 45
      · subst h45
        have hP : ParseInt (45 :: cs) = parseIntRange true (ParseUint cs) := by simp [ParseInt]
        rw [hP]
        rcases parseIntRange_cases true cs with ⟨hs, ha, hv, hr⟩ | ⟨hn, hr⟩
        · left
          simp only [if_true] at hv hr
          refine ⟨-(decimalValue cs : Int), ?_, by omega, by omega, hr⟩
          exact (isSignedDecimal_cons _ _ _).2 (Or.inr (Or.inl ⟨rfl, hs, ha, rfl⟩))
        · right
          refine ⟨?_, hr⟩
          intro n hdec hrange
          simp only [if_true] at hn
          rcases (isSignedDecimal_cons _ _ _).1 hdec with ⟨h, -⟩ | ⟨-, hs, ha, rfl⟩ | ⟨h, -⟩
          · exact absurd h (by decide)
          · exact hn ⟨hs, ha, by omega⟩
          · exact not_isDigit_sign.2 h
      · have hP : ParseInt (c :: cs) = parseIntRange false (ParseUint (c :: cs)) := by
          simp [ParseInt, h43, h45]
        rw [hP]
        rcases parseIntRange_cases false (c :: cs) with ⟨hs, ha, hv, hr⟩ | ⟨hn, hr⟩
        · left
          simp only [Bool.false_eq_true, if_false] at hv hr
          refine ⟨(decimalValue (c :: cs) : Int), ?_, by omega, by omega, hr⟩
          exact (isSignedDecimal_cons _ _ _).2 (Or.inr (Or.inr
            ⟨ha c (List.mem_cons_self _ _), fun x hx => ha x (List.mem_cons_of_mem _ hx), rfl⟩))
        · right
          refine ⟨?_, hr⟩
          intro n hdec hrange
          simp only [Bool.false_eq_true, if_false] at hn
          rcases (isSignedDecimal_cons _ _ _).1 hdec with ⟨h, -⟩ | ⟨h, -⟩ | ⟨hc, ha, rfl⟩
          · exact h43 h
          · exact h45 h
          · refine hn ⟨by simp, ?_, by omega⟩
            intro x hx
            rcases List.mem_cons.1 hx with rfl | hx
            · exact hc
            · exact ha x hx

theorem isSignedDecimal_unique {line : List Byte} {n m : Int}
    (hn : IsSignedDecimal line n) (hm : IsSignedDecimal line m) : n = m := by
  cases line with
  | nil => exact absurd hn (isSignedDecimal_nil n)
  | cons c cs =>
    rcases (isSignedDecimal_cons _ _ _).1 hn with ⟨h1, -, -, rfl⟩ | ⟨h1, -, -, rfl⟩ | ⟨h1, -, rfl⟩ <;>
    rcases (isSignedDecimal_cons _ _ _).1 hm with ⟨h2, -, -, rfl⟩ | ⟨h2, -, -, rfl⟩ | ⟨h2, -, rfl⟩
    · rfl
    · rw [h1] at h2; exact absurd h2 (by decide)
    · rw [h1] at h2; exact absurd h2 not_isDigit_sign.1
    · rw [h1] at h2; exact absurd h2 (by decide)
    · rfl
    · rw [h1] at h2; exact absurd h2 not_isDigit_sign.2
    · rw [h2] at h1; exact absurd h1 not_isDigit_sign.1
    · rw [h2] at h1; exact absurd h1 not_isDigit_sign.2
    · rfl

/-- `ParseInt` returns the number of every signed decimal string within range. -/
theorem ParseInt_of_isSignedDecimal {line : List Byte} {n : Int}
    (h : IsSignedDecimal line n) (hlo : -(2 ^ 63) ≤ n) (hhi : n < 2 ^ 63) :
    ParseInt line = (n, none) := by
  rcases ParseInt_spec line with ⟨m, hm, -, -, hr⟩ | ⟨hno, -⟩
  · rw [hr, isSignedDecimal_unique h hm]
  · exact absurd ⟨hlo, hhi⟩ (hno n h)

theorem decimalFrom_map_digitByte (L : List Nat) (hL : ∀ d ∈ L, d < 10) : ∀ n,
    decimalFrom n (L.map digitByte) = L.foldl (fun y x => x + 10 * y) n := by
  induction L with
  | nil => intro n; rfl
  | cons d ds ih =>
    intro n
    have hd : d < 10 := hL d (List.mem_cons_self _ _)
    rw [List.map_cons, decimalFrom_cons, digitByte_toNat hd,
      ih (fun x hx => hL x (List.mem_cons_of_mem _ hx)), List.foldl_cons]
    congr 1
    omega

theorem decimalValue_map_digitByte (L : List Nat) (hL : ∀ d ∈ L, d < 10) :
    decimalValue (L.map digitByte) = Nat.ofDigits 10 L.reverse := by
  rw [← decimalFrom_zero, decimalFrom_map_digitByte L hL, Nat.ofDigits_eq_foldr,
    List.foldr_reverse]
  rfl

/-- The digits of `u`, most significant first, with one `0` for zero. -/
theorem decimalDigits_spec (u : Nat) :
    (if u = 0 then [0] else (Nat.digits 10 u).reverse) ≠ [] ∧
    (∀ d ∈ (if u = 0 then [0] else (Nat.digits 10 u).reverse), d < 10) ∧
    ((if u = 0 then [0] else (Nat.digits 10 u).reverse).head? = some 0 →
      (if u = 0 then [0] else (Nat.digits 10 u).reverse) = [0]) ∧
    Nat.ofDigits 10 (if u = 0 then [0] else (Nat.digits 10 u).reverse).reverse = u := by
  by_cases h : u = 0
  · subst h
    simp
  · simp only [h, if_false, List.reverse_reverse, Nat.ofDigits_digits]
    have hne : Nat.digits 10 u ≠ [] := Nat.digits_ne_nil_iff_ne_zero.2 h
    refine ⟨by simpa using hne, ?_, ?_, trivial⟩
    · intro d hd
      exact Nat.digits_lt_base (by norm_num) (List.mem_reverse.1 hd)
    · intro hhead
      have hlast := Nat.getLast_digit_ne_zero 10 h
      rw [List.head?_reverse, List.getLast?_eq_getLast _ hne] at hhead
      exact absurd (Option.some.inj hhead) hlast

theorem decimalValue_formatUint (u : Nat) : decimalValue (formatUint u) = u := by
  rw [formatUint_eq_map, decimalValue_map_digitByte _ (decimalDigits_spec u).2.1]
  exact (decimalDigits_spec u).2.2.2

/-- The output of `%d` is the signed decimal representation without leading zeros. -/
theorem isDecimalOf_formatInt (n : Int) : IsDecimalOf (formatInt n) n := by
  obtain ⟨h1, h2, h3, h4⟩ := decimalDigits_spec n.natAbs
  refine ⟨_, h1, h2, h3, h4, ?_⟩
  unfold formatInt
  rw [formatUint_eq_map]
  split <;> rfl

theorem isSignedDecimal_formatInt (n : Int) : IsSignedDecimal (formatInt n) n := by
  unfold formatInt
  by_cases h : n < 0
  · rw [if_pos h]
    refine ⟨[45], formatUint n.natAbs, rfl, Or.inr (Or.inr rfl), formatUint_ne_nil _,
      formatUint_isDigit _, ?_⟩
    rw [decimalValue_formatUint]
    simp only [if_true]
    omega
  · rw [if_neg h]
    refine ⟨[], formatUint n.natAbs, rfl, Or.inl rfl, formatUint_ne_nil _,
      formatUint_isDigit _, ?_⟩
    rw [decimalValue_formatUint]
    simp only [List.nil_eq, reduceCtorEq, if_false]
    omega

theorem ParseInt_formatInt {n : Int} (hlo : -(2 ^ 63) ≤ n) (hhi : n < 2 ^ 63) :
    ParseInt (formatInt n) = (n, none) :=
  ParseInt_of_isSignedDecimal (isSignedDecimal_formatInt n) hlo hhi

/-! ## Reading from the stream -/

theorem ReadString_of_not_mem (delim : Byte) (line rest : List Byte) (h : delim ∉ line) :
    ReadString delim (line ++ delim :: rest) = ((line ++ [delim], none), rest) := by
  induction line with
  | nil => simp [ReadString]
  | cons b bs ih =>
    have hb : b ≠ delim := fun e => h (e ▸ List.mem_cons_self _ _)
    have hbs : delim ∉ bs := fun e => h (List.mem_cons_of_mem _ e)
    simp [ReadString, hb, ih hbs]

theorem ReadString_eof (delim : Byte) (s : List Byte) (h : delim ∉ s) :
    ReadString delim s = ((s, some .EOF), []) := by
  induction s with
  | nil => rfl
  | cons b bs ih =>
    have hb : b ≠ delim := fun e => h (e ▸ List.mem_cons_self _ _)
    have hbs : delim ∉ bs := fun e => h (List.mem_cons_of_mem _ e)
    simp [ReadString, hb, ih hbs]

theorem TrimRight_self (line : List Byte) (h10 : line.getLast? ≠ some 10)
    (h13 : line.getLast? ≠ some 13) : TrimRight line CRLF = line := by
  unfold TrimRight
  rw [List.rdropWhile_eq_self_iff]
  intro hl
  rw [List.getLast?_eq_getLast _ hl] at h10 h13
  have a : line.getLast hl ≠ 10 := fun e => h10 (by rw [e])
  have b : line.getLast hl ≠ 13 := fun e => h13 (by rw [e])
  simp [CRLF, a, b]

theorem TrimRight_append_CRLF (line : List Byte) :
    TrimRight (line ++ CRLF) CRLF = TrimRight line CRLF := by
  unfold TrimRight
  have : line ++ CRLF = (line ++ [13]) ++ [10] := by simp [CRLF]
  rw [this, List.rdropWhile_concat_pos _ _ _ (by simp [CRLF]),
    List.rdropWhile_concat_pos _ _ _ (by simp [CRLF])]

/-- `readLine` on a line that holds no LF and does not end in CR, followed by
CR LF: the line is returned and the reader is left after the LF. -/
theorem readLine_line (line rest : List Byte) (h10 : (10 : Byte) ∉ line)
    (h13 : line.getLast? ≠ some 13) :
    readLine (line ++ CRLF ++ rest) = ((line, none), rest) := by
  have hsplit : line ++ CRLF ++ rest = (line ++ [13]) ++ 10 :: rest := by simp [CRLF]
  have hmem : (10 : Byte) ∉ line ++ [13] := by
    simp only [List.mem_append, List.mem_singleton, not_or]
    exact ⟨h10, by decide⟩
  have hlast : line.getLast? ≠ some 10 := by
    intro e
    exact h10 (List.mem_of_getLast?_eq_some e)
  unfold readLine
  rw [hsplit, ReadString_of_not_mem 10 _ _ hmem]
  have : line ++ [13] ++ [10] = line ++ CRLF := by simp [CRLF]
  simp only [this, TrimRight_append_CRLF, TrimRight_self line hlast h13]

theorem readLine_eof (s : List Byte) (h10 : (10 : Byte) ∉ s) :
    readLine s = (([], some .EOF), []) := by
  unfold readLine
  rw [ReadString_eof 10 s h10]

theorem formatInt_bytes (n : Int) : ∀ c ∈ formatInt n, isDigit c ∨ c = 45 := by
  intro c hc
  unfold formatInt at hc
  split at hc
  · rcases List.mem_cons.1 hc with rfl | h
    · exact Or.inr rfl
    · exact Or.inl (formatUint_isDigit _ c h)
  · exact Or.inl (formatUint_isDigit _ c hc)

theorem formatInt_no_LF (n : Int) : (10 : Byte) ∉ formatInt n := by
  intro h
  rcases formatInt_bytes n 10 h with h | h
  · exact (isDigit_ne h).1 rfl
  · exact absurd h (by decide)

theorem formatInt_no_CR_end (n : Int) : (formatInt n).getLast? ≠ some 13 := by
  intro h
  rcases formatInt_bytes n 13 (List.mem_of_getLast?_eq_some h) with h | h
  · exact (isDigit_ne h).2.1 rfl
  · exact absurd h (by decide)

theorem readLine_formatInt (n : Int) (rest : List Byte) :
    readLine (formatInt n ++ CRLF ++ rest) = ((formatInt n, none), rest) :=
  readLine_line _ _ (formatInt_no_LF n) (formatInt_no_CR_end n)

theorem wrapInt64_of_range {x : Int} (hlo : -(2 ^ 63) ≤ x) (hhi : x < 2 ^ 63) :
    wrapInt64 x = x := by
  unfold wrapInt64
  omega

theorem ReadFull_enough (s rest : List Byte) (hs : s ≠ []) :
    ReadFull (s ++ rest) s.length = ((s, none), rest) := by
  have h0 : s.length ≠ 0 := fun h => hs (List.length_eq_zero.1 h)
  simp [ReadFull, h0]

theorem ReadFull_short (r : List Byte) (n : Nat) (h : r.length < n) :
    ∃ buf, ReadFull r n =
      ((buf, some (if r = [] then Failure.EOF else Failure.ErrUnexpectedEOF)), []) := by
  have h0 : n ≠ 0 := by omega
  have h1 : ¬ n ≤ r.length := by omega
  by_cases hr : r = []
  · exact ⟨List.replicate n 0, by simp [ReadFull, h0, hr]⟩
  · exact ⟨r ++ List.replicate (n - r.length) 0, by simp [ReadFull, h0, h1, hr]⟩

/-- `readBulkString` with enough bytes: the payload `s` is returned, the two
bytes `t` after it are consumed unseen. -/
theorem readBulkString_enough (s t rest : List Byte) (ht : t.length = 2)
    (hlen : (s.length : Int) + 2 < 2 ^ 63) :
    readBulkString (s ++ t ++ rest) (s.length : Int) = .ret ((s, none), rest) := by
  have hw : wrapInt64 ((s.length : Int) + 2) = ((s ++ t).length : Int) := by
    rw [wrapInt64_of_range (by omega) hlen]
    simp [ht]
  have hne : s ++ t ≠ [] := by
    intro h
    have := congrArg List.length h
    simp [ht] at this
  unfold readBulkString
  simp only [hw, Int.toNat_ofNat, ReadFull_enough (s ++ t) rest hne]
  have h1 : ¬ ((List.length (s ++ t) : Int) < 0) := by omega
  have h2 : ¬ ((s.length : Int) < 0 ∨ (s.length : Int) > ((s ++ t).length : Int)) := by
    simp
  simp only [h1, h2, if_false, List.take_left']

theorem Deserialize_nil : Deserialize [] = .ret ((none, some .EOF), []) := rfl

/-- The decoder on a tag byte `'+'` or `'-'`, in terms of `readLine`. -/
theorem Deserialize_text (typ : Byte) (r : List Byte) (h : typ = 43 ∨ typ = 45) :
    Deserialize (typ :: r) =
      match readLine r with
      | ((_, some err), r1) => .ret ((none, some err), r1)
      | ((str, none), r1) => .ret ((some (.mk typ str 0 [] false), none), r1) := by
  simp [Deserialize, ReadByte, SimpleString, Error, h]

/-- The decoder on the tag byte `':'`, in terms of `readLine` and `ParseInt`. -/
theorem Deserialize_integer (r : List Byte) :
    Deserialize (58 :: r) =
      match readLine r with
      | ((_, some err), r1) => .ret ((none, some err), r1)
      | ((line, none), r1) =>
        match ParseInt line with
        | (_, some err) => .ret ((none, some err), r1)
        | (num, none) => .ret ((some (.mk 58 [] num [] false), none), r1) := by
  simp [Deserialize, ReadByte, SimpleString, Error, Integer]

/-- The decoder on the tag byte `'$'`, in terms of `readLine`, `Atoi` and
`readBulkString`. -/
theorem Deserialize_bulk (r : List Byte) :
    Deserialize (36 :: r) =
      match readLine r with
      | ((_, some err), r1) => .ret ((none, some err), r1)
      | ((line, none), r1) =>
        match Atoi line with
        | (_, some err) => .ret ((none, some err), r1)
        | (len, none) =>
          if len = -1 then .ret ((some (.mk 36 [] 0 [] true), none), r1)
          else
            match readBulkString r1 len with
            | .panic => .panic
            | .ret ((str, _), r2) => .ret ((some (.mk 36 str 0 [] false), none), r2) := by
  simp [Deserialize, ReadByte, SimpleString, Error, Integer, BulkString]

/-- The decoder on any other tag byte. -/
theorem Deserialize_other (typ : Byte) (r : List Byte) (h1 : typ ≠ 43) (h2 : typ ≠ 45)
    (h3 : typ ≠ 58) (h4 : typ ≠ 36) :
    Deserialize (typ :: r) = .ret ((none, some .InvalidType), r) := by
  simp [Deserialize, ReadByte, SimpleString, Error, Integer, BulkString, h1, h2, h3, h4]

/-! ## Encoding and decoding one value -/

theorem Serialize_simple (str : List Byte) (num : Int) (arr : List RESPValue) (b : Bool) :
    Serialize (.mk SimpleString str num arr b) = [43] ++ str ++ CRLF := by
  simp [Serialize, SimpleString, CRLF]

theorem Serialize_error (str : List Byte) (num : Int) (arr : List RESPValue) (b : Bool) :
    Serialize (.mk Error str num arr b) =
      [45, 69, 114, 114, 111, 114, 32, 109, 101, 115, 115, 97, 103, 101, 13, 10] := by
  simp [Serialize, SimpleString, Error]

theorem Serialize_integer (str : List Byte) (num : Int) (arr : List RESPValue) (b : Bool) :
    Serialize (.mk Integer str num arr b) = [58] ++ formatInt num ++ CRLF := by
  simp [Serialize, SimpleString, Error, Integer, CRLF]

theorem Serialize_bulk (str : List Byte) (num : Int) (arr : List RESPValue) :
    Serialize (.mk BulkString str num arr false) =
      [36] ++ formatInt str.length ++ CRLF ++ str ++ CRLF := by
  simp [Serialize, SimpleString, Error, Integer, BulkString, CRLF]

theorem Serialize_bulk_null (str : List Byte) (num : Int) (arr : List RESPValue) :
    Serialize (.mk BulkString str num arr true) = [36, 45, 49, 13, 10] := by
  simp [Serialize, SimpleString, Error, Integer, BulkString]

theorem serializeItems_eq (items : List RESPValue) :
    serializeItems items = (items.map Serialize).flatten := by
  induction items with
  | nil => simp [serializeItems]
  | cons x xs ih => simp [serializeItems, ih]

theorem Serialize_array (str : List Byte) (num : Int) (arr : List RESPValue) :
    Serialize (.mk Array str num arr false) =
      [42] ++ formatInt arr.length ++ CRLF ++ (arr.map Serialize).flatten := by
  simp [Serialize, SimpleString, Error, Integer, BulkString, Array, CRLF, serializeItems_eq]

theorem Serialize_array_null (str : List Byte) (num : Int) (arr : List RESPValue) :
    Serialize (.mk Array str num arr true) = [42, 45, 49, 13, 10] := by
  simp [Serialize, SimpleString, Error, Integer, BulkString, Array]

/-- Decoding a line-valued message `'+'` or `'-'`, with more bytes after it. -/
theorem Deserialize_line (typ : Byte) (h : typ = 43 ∨ typ = 45) (text rest : List Byte)
    (h10 : (10 : Byte) ∉ text) (h13 : text.getLast? ≠ some 13) :
    Deserialize ([typ] ++ text ++ CRLF ++ rest) =
      .ret ((some (.mk typ text 0 [] false), none), rest) := by
  have : [typ] ++ text ++ CRLF ++ rest = typ :: (text ++ CRLF ++ rest) := by simp
  rw [this, Deserialize_text typ _ h, readLine_line text rest h10 h13]

/-- Decoding an encoded integer, with more bytes after it. -/
theorem Deserialize_formatInt (n : Int) (hn : IsInt64 n) (rest : List Byte) :
    Deserialize ([58] ++ formatInt n ++ CRLF ++ rest) =
      .ret ((some (.mk Integer [] n [] false), none), rest) := by
  have : [58] ++ formatInt n ++ CRLF ++ rest = 58 :: (formatInt n ++ CRLF ++ rest) := by simp
  rw [this, Deserialize_integer, readLine_formatInt]
  simp only [ParseInt_formatInt hn.1 hn.2]
  rfl

/-- Decoding an encoded bulk string, with more bytes after it: the two bytes `t`
after the payload are consumed unseen. -/
theorem Deserialize_bulk_payload (s t rest : List Byte) (ht : t.length = 2)
    (hlen : (s.length : Int) + 2 < 2 ^ 63) :
    Deserialize ([36] ++ formatInt s.length ++ CRLF ++ s ++ t ++ rest) =
      .ret ((some (.mk BulkString s 0 [] false), none), rest) := by
  have : [36] ++ formatInt s.length ++ CRLF ++ s ++ t ++ rest =
      36 :: (formatInt s.length ++ CRLF ++ (s ++ t ++ rest)) := by simp
  have hne : (s.length : Int) ≠ -1 := by omega
  rw [this, Deserialize_bulk, readLine_formatInt]
  simp only [Atoi, ParseInt_formatInt (n := (s.length : Int)) (by omega) (by omega), hne,
    if_false, readBulkString_enough s t rest ht hlen]
  rfl

/-- Decoding the null bulk string, with more bytes after it. -/
theorem Deserialize_bulk_null (rest : List Byte) :
    Deserialize ([36, 45, 49, 13, 10] ++ rest) =
      .ret ((some (.mk BulkString [] 0 [] true), none), rest) := by
  have h : [36, 45, 49, 13, 10] ++ rest = 36 :: ([45, 49] ++ CRLF ++ rest) := by simp [CRLF]
  rw [h, Deserialize_bulk, readLine_line [45, 49] rest (by decide) (by decide)]
  rfl

theorem length_add_two_lt (str : List Byte) (num : Int) (arr : List RESPValue)
    (h : IsGoString (Serialize (.mk BulkString str num arr false))) :
    (str.length : Int) + 2 < 2 ^ 63 := by
  unfold IsGoString at h
  rw [Serialize_bulk] at h
  simp only [List.length_append, CRLF, List.length_cons, List.length_nil] at h
  omega

/-! ## The claims -/

/-- C1, as stated, fails at three values: the non-null empty Array (the decoder
has no Array case and returns the invalid-type error), the Error with text
`x` (the encoder writes the fixed text, which is what comes back), and the
SimpleString `a\nb` (the line ends at the first LF, so `a` comes back). -/
theorem C1_counterexample :
    ¬ RoundTrips (.mk Array [] 0 [] false) ∧
    ¬ RoundTrips (.mk Error [120] 0 [] false) ∧
    ¬ RoundTrips (.mk SimpleString [97, 10, 98] 0 [] false) := by
  refine ⟨?_, ?_, ?_⟩
  · have h : Deserialize (Serialize (.mk Array [] 0 [] false)) =
        .ret ((none, some .InvalidType), [48, 13, 10]) := by rfl
    rintro ⟨w, r, hw, -⟩
    rw [h] at hw
    simp at hw
  · have h : Deserialize (Serialize (.mk Error [120] 0 [] false)) =
        .ret ((some (.mk Error [69, 114, 114, 111, 114, 32, 109, 101, 115, 115, 97, 103, 101]
          0 [] false), none), []) := by rfl
    rintro ⟨w, r, hw, hp⟩
    rw [h] at hw
    simp only [Exec.ret.injEq, Prod.mk.injEq, Option.some.injEq, and_true] at hw
    obtain ⟨rfl, -⟩ := hw
    have := hp.2.1 (Or.inr (Or.inl rfl))
    simp [RESPValue.Str] at this
  · have h : Deserialize (Serialize (.mk SimpleString [97, 10, 98] 0 [] false)) =
        .ret ((some (.mk SimpleString [97] 0 [] false), none), [98, 13, 10]) := by rfl
    rintro ⟨w, r, hw, hp⟩
    rw [h] at hw
    simp only [Exec.ret.injEq, Prod.mk.injEq, Option.some.injEq, and_true] at hw
    obtain ⟨rfl, -⟩ := hw
    have := hp.2.1 (Or.inl rfl)
    simp [RESPValue.Str] at this

/-- C1, amended: for every non-null value `v` (its `Num` an `int64`, its encoding
a Go string) whose tag is SimpleString with a text that holds no LF and
does not end in CR, or Integer, or BulkString, decoding the encoding of `v`
succeeds, reads all of it and returns the tag and the payload of `v`; for the
tag Error decoding succeeds with the tag Error and the fixed text
`Error message`. -/
theorem C1_roundtrip_supported (v : RESPValue) (hnull : v.IsNull = false)
    (hnum : IsInt64 v.Num) (hstr : IsGoString (Serialize v)) :
    ((v.Typ = SimpleString ∧ (10 : Byte) ∉ v.Str ∧ v.Str.getLast? ≠ some 13) ∨
        v.Typ = Integer ∨ v.Typ = BulkString →
      ∃ w, Deserialize (Serialize v) = .ret ((some w, none), []) ∧ SamePayload v w) ∧
    (v.Typ = Error →
      ∃ w, Deserialize (Serialize v) = .ret ((some w, none), []) ∧ w.Typ = Error ∧
        w.Str = [69, 114, 114, 111, 114, 32, 109, 101, 115, 115, 97, 103, 101]) := by
  obtain ⟨typ, str, num, arr, isNull⟩ := v
  simp only [RESPValue.IsNull, RESPValue.Num, RESPValue.Typ, RESPValue.Str] at *
  subst hnull
  refine ⟨?_, ?_⟩
  · rintro (⟨rfl, h10, h13⟩ | rfl | rfl)
    · refine ⟨.mk SimpleString str 0 [] false, ?_, rfl, fun _ => rfl, ?_, ?_⟩
      · rw [Serialize_simple]
        simpa using Deserialize_line 43 (Or.inl rfl) str [] h10 h13
      · intro h; simp only [RESPValue.Typ] at h; exact absurd h (by decide)
      · intro h; simp only [RESPValue.Typ] at h; exact absurd h (by decide)
    · refine ⟨.mk Integer [] num [] false, ?_, rfl, ?_, fun _ => rfl, ?_⟩
      · rw [Serialize_integer]
        simpa using Deserialize_formatInt num hnum []
      · intro h; simp only [RESPValue.Typ] at h; exact absurd h (by decide)
      · intro h; simp only [RESPValue.Typ] at h; exact absurd h (by decide)
    · refine ⟨.mk BulkString str 0 [] false, ?_, rfl, fun _ => rfl, ?_, ?_⟩
      · rw [Serialize_bulk]
        simpa using Deserialize_bulk_payload str CRLF [] rfl (length_add_two_lt str num arr hstr)
      · intro h; simp only [RESPValue.Typ] at h; exact absurd h (by decide)
      · intro h; simp only [RESPValue.Typ] at h; exact absurd h (by decide)
  · rintro rfl
    exact ⟨.mk Error [69, 114, 114, 111, 114, 32, 109, 101, 115, 115, 97, 103, 101] 0 [] false,
      by rw [Serialize_error]; rfl, rfl, rfl⟩

/-- C1, amended, at the SimpleString `OK`. -/
theorem C1_roundtrip_supported_witness :
    ∃ w, Deserialize (Serialize (.mk SimpleString [79, 75] 0 [] false)) =
        .ret ((some w, none), []) ∧
      SamePayload (.mk SimpleString [79, 75] 0 [] false) w :=
  (C1_roundtrip_supported (.mk SimpleString [79, 75] 0 [] false) rfl (by decide)
    (by decide)).1 (Or.inl ⟨rfl, by decide, by decide⟩)

/-- C2: the BulkString round trip is binary-safe.  For every byte string `s`
(any bytes, CR and LF included, the empty string included) whose encoding is a
Go string, decoding the encoding of the non-null BulkString `s` succeeds with
the tag BulkString, `IsNull` false and `Str` equal to `s`; decoding the
encoding of a null BulkString succeeds with the tag BulkString and `IsNull`
true. -/
theorem C2_bulk_roundtrip (s : List Byte) (num : Int) (arr : List RESPValue)
    (hstr : IsGoString (Serialize (.mk BulkString s num arr false))) :
    (∃ w, Deserialize (Serialize (.mk BulkString s num arr false)) =
        .ret ((some w, none), []) ∧
      w.Typ = BulkString ∧ w.IsNull = false ∧ w.Str = s) ∧
    (∃ w, Deserialize (Serialize (.mk BulkString s num arr true)) =
        .ret ((some w, none), []) ∧
      w.Typ = BulkString ∧ w.IsNull = true) := by
  constructor
  · refine ⟨.mk BulkString s 0 [] false, ?_, rfl, rfl, rfl⟩
    rw [Serialize_bulk]
    simpa using Deserialize_bulk_payload s CRLF [] rfl (length_add_two_lt s num arr hstr)
  · refine ⟨.mk BulkString [] 0 [] true, ?_, rfl, rfl⟩
    rw [Serialize_bulk_null]
    simpa using Deserialize_bulk_null []

/-- C2 at the payload `a CR LF b`. -/
theorem C2_bulk_roundtrip_witness :
    (∃ w, Deserialize (Serialize (.mk BulkString [97, 13, 10, 98] 0 [] false)) =
        .ret ((some w, none), []) ∧
      w.Typ = BulkString ∧ w.IsNull = false ∧ w.Str = [97, 13, 10, 98]) ∧
    (∃ w, Deserialize (Serialize (.mk BulkString [97, 13, 10, 98] 0 [] true)) =
        .ret ((some w, none), []) ∧
      w.Typ = BulkString ∧ w.IsNull = true) :=
  C2_bulk_roundtrip [97, 13, 10, 98] 0 [] (by decide)

/-- C3: the Integer round trip.  For every `int64` number `n`, the encoding of
the Integer `n` is `':'`, then the signed base-10 representation of `n`
without leading zeros, then CR LF; and decoding it succeeds with the tag
Integer and `Num` equal to `n`. -/
theorem C3_integer_roundtrip (n : Int) (hn : IsInt64 n) (str : List Byte)
    (arr : List RESPValue) (isNull : Bool) :
    ∃ dec, IsDecimalOf dec n ∧
      Serialize (.mk Integer str n arr isNull) = [58] ++ dec ++ CRLF ∧
      ∃ w, Deserialize (Serialize (.mk Integer str n arr isNull)) =
          .ret ((some w, none), []) ∧
        w.Typ = Integer ∧ w.Num = n := by
  refine ⟨formatInt n, isDecimalOf_formatInt n, Serialize_integer str n arr isNull,
    .mk Integer [] n [] false, ?_, rfl, rfl⟩
  rw [Serialize_integer]
  simpa using Deserialize_formatInt n hn []

/-- C3 at the least `int64` number. -/
theorem C3_integer_roundtrip_witness :
    ∃ dec, IsDecimalOf dec (-9223372036854775808) ∧
      Serialize (.mk Integer [] (-9223372036854775808) [] false) = [58] ++ dec ++ CRLF ∧
      ∃ w, Deserialize (Serialize (.mk Integer [] (-9223372036854775808) [] false)) =
          .ret ((some w, none), []) ∧
        w.Typ = Integer ∧ w.Num = -9223372036854775808 :=
  C3_integer_roundtrip (-9223372036854775808) (by decide) [] [] false

/-- C4: decoding a line-valued message keeps the tag and the text.  For a tag
byte `t` that is `'+'` or `'-'` and a text that holds no LF and does not end
in CR, decoding `t`, the text, CR LF succeeds with `Type` equal to `t` and
`Str` equal to the text. -/
theorem C4_line_decode (t : Byte) (ht : t = SimpleString ∨ t = Error) (text : List Byte)
    (hLF : (10 : Byte) ∉ text) (hCR : text.getLast? ≠ some 13) :
    ∃ w, Deserialize ([t] ++ text ++ CRLF) = .ret ((some w, none), []) ∧
      w.Typ = t ∧ w.Str = text := by
  refine ⟨.mk t text 0 [] false, ?_, rfl, rfl⟩
  simpa using Deserialize_line t ht text [] hLF hCR

/-- C4 at the stream `-Error message` CR LF. -/
theorem C4_line_decode_witness :
    ∃ w, Deserialize ([45] ++ [69, 114, 114, 111, 114, 32, 109, 101, 115, 115, 97, 103, 101]
        ++ CRLF) = .ret ((some w, none), []) ∧
      w.Typ = 45 ∧ w.Str = [69, 114, 114, 111, 114, 32, 109, 101, 115, 115, 97, 103, 101] :=
  C4_line_decode 45 (Or.inr rfl) [69, 114, 114, 111, 114, 32, 109, 101, 115, 115, 97, 103, 101]
    (by decide) (by decide)

/-- C5: for every value whose tag is Error, whatever its other fields hold,
`Serialize` returns the 16 bytes `-Error message` CR LF. -/
theorem C5_error_fixed (v : RESPValue) (h : v.Typ = Error) :
    Serialize v = [45, 69, 114, 114, 111, 114, 32, 109, 101, 115, 115, 97, 103, 101, 13, 10] ∧
    (Serialize v).length = 16 := by
  obtain ⟨typ, str, num, arr, isNull⟩ := v
  simp only [RESPValue.Typ] at h
  subst h
  rw [Serialize_error]
  exact ⟨rfl, rfl⟩

/-- C5 at an Error value with every field set. -/
theorem C5_error_fixed_witness :
    Serialize (.mk Error [120] 7 [.mk Integer [] 1 [] false] true) =
      [45, 69, 114, 114, 111, 114, 32, 109, 101, 115, 115, 97, 103, 101, 13, 10] ∧
    (Serialize (.mk Error [120] 7 [.mk Integer [] 1 [] false] true)).length = 16 :=
  C5_error_fixed (.mk Error [120] 7 [.mk Integer [] 1 [] false] true) rfl

/-- C6: the encoding of an Array.  For every value with the tag Array: when
`IsNull` is true `Serialize` returns `*-1` CR LF; otherwise it returns `'*'`,
the decimal representation of the number of elements, CR LF, then the
encodings of the elements in order; so an empty non-null array gives `*0`
CR LF. -/
theorem C6_array_encoding (v : RESPValue) (h : v.Typ = Array) :
    (v.IsNull = true → Serialize v = [42, 45, 49, 13, 10]) ∧
    (v.IsNull = false → ∃ dec, IsDecimalOf dec v.Array.length ∧
      Serialize v = [42] ++ dec ++ CRLF ++ (v.Array.map Serialize).flatten) ∧
    (v.IsNull = false → v.Array = [] → Serialize v = [42, 48, 13, 10]) := by
  obtain ⟨typ, str, num, arr, isNull⟩ := v
  simp only [RESPValue.Typ, RESPValue.IsNull, RESPValue.Array] at *
  subst h
  refine ⟨?_, ?_, ?_⟩
  · rintro rfl
    exact Serialize_array_null str num arr
  · rintro rfl
    exact ⟨formatInt arr.length, isDecimalOf_formatInt _, Serialize_array str num arr⟩
  · rintro rfl rfl
    rw [Serialize_array]
    rfl

/-- C6 at the array of the three bulk strings `testing`, `the`, `array`. -/
theorem C6_array_encoding_witness :
    ∃ dec, IsDecimalOf dec 3 ∧
      Serialize (.mk Array [] 0 [.mk BulkString [116, 101, 115, 116, 105, 110, 103] 0 [] false,
        .mk BulkString [116, 104, 101] 0 [] false,
        .mk BulkString [97, 114, 114, 97, 121] 0 [] false] false) =
      [42] ++ dec ++ CRLF ++
        [36, 55, 13, 10, 116, 101, 115, 116, 105, 110, 103, 13, 10,
          36, 51, 13, 10, 116, 104, 101, 13, 10,
          36, 53, 13, 10, 97, 114, 114, 97, 121, 13, 10] :=
  (C6_array_encoding (.mk Array [] 0 [.mk BulkString [116, 101, 115, 116, 105, 110, 103] 0 [] false,
    .mk BulkString [116, 104, 101] 0 [] false,
    .mk BulkString [97, 114, 114, 97, 121] 0 [] false] false) rfl).2.1 rfl

/-- C7: the encoding of a non-null BulkString uses the byte length.  For every
payload `s` of `n` bytes, `Serialize` returns `'$'`, the decimal
representation of `n`, CR LF, `s`, CR LF, which is `n + digits(n) + 5` bytes;
the six bytes of `h`, a two-byte character, `llo` are announced as `6`. -/
theorem C7_bulk_encoding (s : List Byte) (num : Int) (arr : List RESPValue) :
    (∃ dec, IsDecimalOf dec s.length ∧
      Serialize (.mk BulkString s num arr false) = [36] ++ dec ++ CRLF ++ s ++ CRLF) ∧
    (Serialize (.mk BulkString s num arr false)).length = s.length + numDigits s.length + 5 ∧
    Serialize (.mk BulkString [104, 195, 169, 108, 108, 111] num arr false) =
      [36, 54, 13, 10, 104, 195, 169, 108, 108, 111, 13, 10] := by
  refine ⟨⟨formatInt s.length, isDecimalOf_formatInt _, Serialize_bulk s num arr⟩, ?_, ?_⟩
  · have hf : formatInt (s.length : Int) = formatUint s.length := by
      unfold formatInt
      rw [if_neg (by omega)]
      rfl
    rw [Serialize_bulk, hf]
    simp only [List.length_append, formatUint_length, CRLF, List.length_cons, List.length_nil]
    omega
  · rw [Serialize_bulk]
    rfl

/-- C8, the code at the stream `$5` CR LF `ab`: `readBulkString` returns the
empty string and `io.ErrUnexpectedEOF`, and `Deserialize` returns a non-null
BulkString with the empty payload and no error. -/
theorem C8_truncated_bulk_is_returned :
    readBulkString [97, 98] 5 = .ret (([], some .ErrUnexpectedEOF), []) ∧
    Deserialize [36, 53, 13, 10, 97, 98] =
      .ret ((some (.mk BulkString [] 0 [] false), none), []) :=
  ⟨by rfl, by rfl⟩

/-- C9: integer parsing fails exactly on malformed lines.  For every line without
CR and LF, decoding `':'`, the line, CR LF succeeds if and only if the line is
an optional sign followed by at least one decimal digit and denotes an `int64`
number; then the value is the Integer with that number; otherwise the result
is a protocol failure and no value. -/
theorem C9_integer_parse (line : List Byte) (hCR : (13 : Byte) ∉ line)
    (hLF : (10 : Byte) ∉ line) :
    ((∃ w r, Deserialize ([58] ++ line ++ CRLF) = .ret ((some w, none), r)) ↔
      ∃ n, IsSignedDecimal line n ∧ IsInt64 n) ∧
    (∀ n, IsSignedDecimal line n → IsInt64 n →
      Deserialize ([58] ++ line ++ CRLF) =
        .ret ((some (.mk Integer [] n [] false), none), [])) ∧
    ((¬ ∃ n, IsSignedDecimal line n ∧ IsInt64 n) →
      ∃ e, e.isProtocol = true ∧
        Deserialize ([58] ++ line ++ CRLF) = .ret ((none, some e), [])) := by
  have hlast : line.getLast? ≠ some 13 := fun e => hCR (List.mem_of_getLast?_eq_some e)
  have hD : Deserialize ([58] ++ line ++ CRLF) =
      match ParseInt line with
      | (_, some err) => .ret ((none, some err), [])
      | (num, none) => .ret ((some (.mk 58 [] num [] false), none), []) := by
    have : [58] ++ line ++ CRLF = 58 :: (line ++ CRLF ++ []) := by simp
    rw [this, Deserialize_integer, readLine_line line [] hLF hlast]
  have hok : ∀ n, IsSignedDecimal line n → IsInt64 n →
      Deserialize ([58] ++ line ++ CRLF) =
        .ret ((some (.mk Integer [] n [] false), none), []) := by
    intro n hdec hn
    rw [hD, ParseInt_of_isSignedDecimal hdec hn.1 hn.2]
    rfl
  have hbad : (¬ ∃ n, IsSignedDecimal line n ∧ IsInt64 n) →
      ∃ e, e.isProtocol = true ∧
        Deserialize ([58] ++ line ++ CRLF) = .ret ((none, some e), []) := by
    intro hno
    rcases ParseInt_spec line with ⟨n, hdec, hlo, hhi, -⟩ | ⟨-, m, e, hr, he⟩
    · exact absurd ⟨n, hdec, hlo, hhi⟩ hno
    · refine ⟨e, ?_, by rw [hD, hr]⟩
      rcases he with rfl | rfl <;> rfl
  refine ⟨⟨?_, ?_⟩, hok, hbad⟩
  · rintro ⟨w, r, hw⟩
    by_contra hno
    obtain ⟨e, -, he⟩ := hbad hno
    rw [he] at hw
    simp at hw
  · rintro ⟨n, hdec, hn⟩
    exact ⟨_, _, hok n hdec hn⟩

/-- C9 at the line `abc`: no number, a syntax error. -/
theorem C9_integer_parse_witness :
    (¬ ∃ n, IsSignedDecimal [97, 98, 99] n ∧ IsInt64 n) ∧
    ∃ e, e.isProtocol = true ∧
      Deserialize ([58] ++ [97, 98, 99] ++ CRLF) = .ret ((none, some e), []) := by
  have hno : ¬ ∃ n, IsSignedDecimal [97, 98, 99] n ∧ IsInt64 n := by
    rintro ⟨n, hdec, -⟩
    rcases (isSignedDecimal_cons _ _ _).1 hdec with ⟨h, -⟩ | ⟨h, -⟩ | ⟨h, -⟩
    · exact absurd h (by decide)
    · exact absurd h (by decide)
    · exact absurd h (by decide)
  exact ⟨hno, (C9_integer_parse [97, 98, 99] (by decide) (by decide)).2.2 hno⟩

/-- C10, the code at bulk-string lengths that are negative and not `-1`, or so
large that `length + 2` wraps around: `Deserialize` panics.  At `$-2` CR LF
the slice `buf[:-2]` is out of range; at `$-3` CR LF, at
`$9223372036854775807` CR LF and at `$9223372036854775806` CR LF the size
given to `make` is negative. -/
theorem C10_deserialize_panics :
    Deserialize [36, 45, 50, 13, 10] = .panic ∧
    Deserialize [36, 45, 51, 13, 10] = .panic ∧
    Deserialize [36, 57, 50, 50, 51, 51, 55, 50, 48, 51, 54, 56, 53, 52, 55, 55, 53, 56, 48,
      55, 13, 10] = .panic ∧
    Deserialize [36, 57, 50, 50, 51, 51, 55, 50, 48, 51, 54, 56, 53, 52, 55, 55, 53, 56, 48,
      54, 13, 10] = .panic :=
  ⟨by rfl, by rfl, by rfl, by rfl⟩

/-! ## Further facts about the read helpers -/

theorem dropWhile_congr_mem {p q : Byte → Bool} (l : List Byte)
    (h : ∀ x ∈ l, p x = q x) : l.dropWhile p = l.dropWhile q := by
  induction l with
  | nil => rfl
  | cons a as ih =>
    have ha : p a = q a := h a (List.mem_cons_self _ _)
    have has : ∀ x ∈ as, p x = q x := fun x hx => h x (List.mem_cons_of_mem _ hx)
    simp only [List.dropWhile_cons, ha, ih has]

/-- On a line without LF, `TrimRight` with the cutset CR LF removes exactly the
trailing CR bytes. -/
theorem TrimRight_no_LF (line : List Byte) (h10 : (10 : Byte) ∉ line) :
    TrimRight line CRLF = line.rdropWhile (fun b => decide (b = 13)) := by
  unfold TrimRight List.rdropWhile
  congr 1
  apply dropWhile_congr_mem
  intro x hx
  have hx10 : x ≠ 10 := fun e => h10 (e ▸ List.mem_reverse.1 hx)
  simp [CRLF, hx10]

/-- What `readLine` computes on a stream with an LF, `pre` the bytes before the
first LF: the result of `TrimRight` on them, which drops trailing CR bytes
for as long as there are any, with the reader left after that LF. -/
theorem readLine_general (pre rest : List Byte) (h10 : (10 : Byte) ∉ pre) :
    readLine (pre ++ 10 :: rest) =
      ((pre.rdropWhile (fun b => decide (b = 13)), none), rest) := by
  unfold readLine
  rw [ReadString_of_not_mem 10 pre rest h10]
  have h : TrimRight (pre ++ [10]) CRLF = TrimRight pre CRLF := by
    unfold TrimRight
    rw [List.rdropWhile_concat_pos _ _ _ (by simp [CRLF])]
  simp only [h, TrimRight_no_LF pre h10]

/-! ## The claims, continued -/

/-- C11, as stated, fails at the stream `*1` CR LF `$4` CR LF `ping` CR LF and at
`*-1` CR LF: the decoder has no Array case, so no count line is read and the
result is the invalid-type error, not an Array. -/
theorem C11_counterexample :
    Deserialize [42, 49, 13, 10, 36, 52, 13, 10, 112, 105, 110, 103, 13, 10] =
      .ret ((none, some .InvalidType), [49, 13, 10, 36, 52, 13, 10, 112, 105, 110, 103, 13, 10]) ∧
    Deserialize [42, 45, 49, 13, 10] = .ret ((none, some .InvalidType), [45, 49, 13, 10]) :=
  ⟨by rfl, by rfl⟩

/-- C11, amended: for every stream that begins with `'*'`, `Deserialize` reads
that one byte and returns the invalid-type protocol failure and no value;
arrays are not decoded. -/
theorem C11_array_not_decoded (r : List Byte) :
    Deserialize ([Array] ++ r) = .ret ((none, some .InvalidType), r) ∧
    Failure.InvalidType.isProtocol = true :=
  ⟨Deserialize_other 42 r (by decide) (by decide) (by decide) (by decide), rfl⟩

/-- C12: an unknown type byte is rejected.  For every stream whose first byte `b`
is none of `'+'`, `'-'`, `':'`, `'$'`, `'*'`, `Deserialize` returns the
invalid-type protocol failure and no value, and the reader is left right
after that byte. -/
theorem C12_unknown_type (b : Byte) (r : List Byte) (h1 : b ≠ SimpleString)
    (h2 : b ≠ Error) (h3 : b ≠ Integer) (h4 : b ≠ BulkString) (_h5 : b ≠ Array) :
    Deserialize (b :: r) = .ret ((none, some .InvalidType), r) ∧
    Failure.InvalidType.isProtocol = true :=
  ⟨Deserialize_other b r h1 h2 h3 h4, rfl⟩

/-- C12 at the stream `?abc`. -/
theorem C12_unknown_type_witness :
    Deserialize (63 :: [97, 98, 99]) = .ret ((none, some .InvalidType), [97, 98, 99]) ∧
    Failure.InvalidType.isProtocol = true :=
  C12_unknown_type 63 [97, 98, 99] (by decide) (by decide) (by decide) (by decide) (by decide)

/-- C13: `Serialize` is total and gives the empty output on an unknown tag.  For
every value whose `Type` is none of the five tag bytes the output is empty,
whatever the other fields hold; for every value with one of the five tags the
output is not empty. -/
theorem C13_unknown_tag_empty (v : RESPValue) :
    (v.Typ ≠ SimpleString ∧ v.Typ ≠ Error ∧ v.Typ ≠ Integer ∧ v.Typ ≠ BulkString ∧
        v.Typ ≠ Array → Serialize v = []) ∧
    (v.Typ = SimpleString ∨ v.Typ = Error ∨ v.Typ = Integer ∨ v.Typ = BulkString ∨
        v.Typ = Array → Serialize v ≠ []) := by
  obtain ⟨typ, str, num, arr, isNull⟩ := v
  simp only [RESPValue.Typ]
  constructor
  · rintro ⟨h1, h2, h3, h4, h5⟩
    simp [Serialize, h1, h2, h3, h4, h5]
  · rintro (rfl | rfl | rfl | rfl | rfl)
    · rw [Serialize_simple]; simp
    · rw [Serialize_error]; simp
    · rw [Serialize_integer]; simp
    · cases isNull
      · rw [Serialize_bulk]; simp
      · rw [Serialize_bulk_null]; simp
    · cases isNull
      · rw [Serialize_array]; simp
      · rw [Serialize_array_null]; simp

/-- C13 at a value with the tag byte `?` and every other field set. -/
theorem C13_unknown_tag_empty_witness :
    Serialize (.mk 63 [97] 5 [.mk Integer [] 1 [] false] true) = [] :=
  (C13_unknown_tag_empty (.mk 63 [97] 5 [.mk Integer [] 1 [] false] true)).1
    ⟨by decide, by decide, by decide, by decide, by decide⟩

/-- C14, the code at the stream `OK` CR CR LF: `readLine` returns `OK`, with both
CR bytes removed, not `OK` CR; `strings.TrimRight` takes `CRLF` as a set of
bytes and removes every trailing CR, where one terminator CR LF was to be
removed.  At `OK` CR LF, with the one terminator, it returns `OK`. -/
theorem C14_readLine_strips_two_CR :
    readLine [79, 75, 13, 13, 10] = (([79, 75], none), []) ∧
    readLine [79, 75, 13, 13, 10] ≠ (([79, 75, 13], none), []) ∧
    readLine [79, 75, 13, 10] = (([79, 75], none), []) :=
  ⟨by decide, by decide, by decide⟩

/-- C15: an exhausted stream is an I/O failure.  For the empty stream, and for a
type byte among `'+'`, `'-'`, `':'`, `'$'` followed by bytes without LF,
`Deserialize` returns `io.EOF` and no value; `io.EOF` is an I/O failure and
not a protocol failure. -/
theorem C15_exhausted_stream (s : List Byte)
    (h : s = [] ∨ ∃ t body, s = t :: body ∧
      (t = SimpleString ∨ t = Error ∨ t = Integer ∨ t = BulkString) ∧ (10 : Byte) ∉ body) :
    Deserialize s = .ret ((none, some .EOF), []) ∧
    Failure.EOF.isIO = true ∧ Failure.EOF.isProtocol = false ∧
    Failure.EOF ≠ Failure.InvalidType ∧ Failure.EOF ≠ Failure.ErrSyntax ∧
    Failure.EOF ≠ Failure.ErrRange := by
  refine ⟨?_, rfl, rfl, by decide, by decide, by decide⟩
  rcases h with rfl | ⟨t, body, rfl, ht, h10⟩
  · rfl
  · rcases ht with rfl | rfl | rfl | rfl
    · rw [Deserialize_text SimpleString body (Or.inl rfl), readLine_eof body h10]
    · rw [Deserialize_text Error body (Or.inr rfl), readLine_eof body h10]
    · rw [show Integer = 58 from rfl, Deserialize_integer, readLine_eof body h10]
    · rw [show BulkString = 36 from rfl, Deserialize_bulk, readLine_eof body h10]

/-- C15 at the stream `$12` with no line end. -/
theorem C15_exhausted_stream_witness :
    Deserialize [36, 49, 50] = .ret ((none, some .EOF), []) ∧
    Failure.EOF.isIO = true ∧ Failure.EOF.isProtocol = false ∧
    Failure.EOF ≠ Failure.InvalidType ∧ Failure.EOF ≠ Failure.ErrSyntax ∧
    Failure.EOF ≠ Failure.ErrRange :=
  C15_exhausted_stream [36, 49, 50]
    (Or.inr ⟨36, [49, 50], rfl, Or.inr (Or.inr (Or.inr rfl)), by decide⟩)

/-- The shape of every value `Deserialize` returns: a line-valued value, an
Integer, the null BulkString, or a non-null BulkString; only the field of
the tag is set. -/
theorem Deserialize_ok_shape (r r1 : List Byte) (w : RESPValue)
    (h : Deserialize r = .ret ((some w, none), r1)) :
    (∃ t str, (t = SimpleString ∨ t = Error) ∧ w = .mk t str 0 [] false) ∨
    (∃ n, w = .mk Integer [] n [] false) ∨
    w = .mk BulkString [] 0 [] true ∨
    (∃ str, w = .mk BulkString str 0 [] false) := by
  cases r with
  | nil => simp [Deserialize_nil] at h
  | cons t r0 =>
    by_cases h1 : t = 43 ∨ t = 45
    · rw [Deserialize_text t r0 h1] at h
      split at h
      · simp at h
      · simp only [Exec.ret.injEq, Prod.mk.injEq, Option.some.injEq, and_true] at h
        exact Or.inl ⟨t, _, h1, h.1.symm⟩
    · by_cases h2 : t = 58
      · subst h2
        rw [Deserialize_integer] at h
        split at h
        · simp at h
        · split at h
          · simp at h
          · simp only [Exec.ret.injEq, Prod.mk.injEq, Option.some.injEq, and_true] at h
            exact Or.inr (Or.inl ⟨_, h.1.symm⟩)
      · by_cases h3 : t = 36
        · subst h3
          rw [Deserialize_bulk] at h
          split at h
          · simp at h
          · split at h
            · simp at h
            · split at h
              · simp only [Exec.ret.injEq, Prod.mk.injEq, Option.some.injEq, and_true] at h
                exact Or.inr (Or.inr (Or.inl h.1.symm))
              · split at h
                · simp at h
                · simp only [Exec.ret.injEq, Prod.mk.injEq, Option.some.injEq, and_true] at h
                  exact Or.inr (Or.inr (Or.inr ⟨_, h.1.symm⟩))
        · rw [Deserialize_other t r0 (fun e => h1 (Or.inl e)) (fun e => h1 (Or.inr e)) h2 h3] at h
          simp at h

/-- C16: decoded values keep every field that is not meaningful for the tag at
its zero value.  For every stream on which `Deserialize` succeeds: a
SimpleString or Error has `Num = 0`, an empty `Array` and `IsNull = false`; an
Integer has an empty `Str`, an empty `Array` and `IsNull = false`; a BulkString
has `Num = 0` and an empty `Array`, and an empty `Str` whenever `IsNull` is
true. -/
theorem C16_decoded_fields (r r1 : List Byte) (w : RESPValue)
    (h : Deserialize r = .ret ((some w, none), r1)) :
    (w.Typ = SimpleString ∨ w.Typ = Error →
      w.Num = 0 ∧ w.Array = [] ∧ w.IsNull = false) ∧
    (w.Typ = Integer → w.Str = [] ∧ w.Array = [] ∧ w.IsNull = false) ∧
    (w.Typ = BulkString → w.Num = 0 ∧ w.Array = [] ∧ (w.IsNull = true → w.Str = [])) := by
  rcases Deserialize_ok_shape r r1 w h with ⟨t, str, ht, rfl⟩ | ⟨n, rfl⟩ | rfl | ⟨str, rfl⟩
  · refine ⟨fun _ => ⟨rfl, rfl, rfl⟩, ?_, ?_⟩
    · intro e
      simp only [RESPValue.Typ] at e
      subst e
      rcases ht with ht | ht <;> exact absurd ht (by decide)
    · intro e
      simp only [RESPValue.Typ] at e
      subst e
      rcases ht with ht | ht <;> exact absurd ht (by decide)
  · refine ⟨?_, fun _ => ⟨rfl, rfl, rfl⟩, ?_⟩
    · intro e
      simp only [RESPValue.Typ] at e
      exact absurd e (by decide)
    · intro e
      simp only [RESPValue.Typ] at e
      exact absurd e (by decide)
  · refine ⟨?_, ?_, fun _ => ⟨rfl, rfl, fun _ => rfl⟩⟩
    · intro e
      simp only [RESPValue.Typ] at e
      exact absurd e (by decide)
    · intro e
      simp only [RESPValue.Typ] at e
      exact absurd e (by decide)
  · refine ⟨?_, ?_, fun _ => ⟨rfl, rfl, ?_⟩⟩
    · intro e
      simp only [RESPValue.Typ] at e
      exact absurd e (by decide)
    · intro e
      simp only [RESPValue.Typ] at e
      exact absurd e (by decide)
    · intro e
      simp only [RESPValue.IsNull] at e
      exact absurd e (by decide)

/-- C16 at the stream `$-1` CR LF, which decodes to the null BulkString. -/
theorem C16_decoded_fields_witness :
    Deserialize [36, 45, 49, 13, 10] =
      .ret ((some (.mk BulkString [] 0 [] true), none), []) ∧
    ((RESPValue.mk BulkString [] 0 [] true).Typ = BulkString →
      (RESPValue.mk BulkString [] 0 [] true).Num = 0 ∧
        (RESPValue.mk BulkString [] 0 [] true).Array = [] ∧
        ((RESPValue.mk BulkString [] 0 [] true).IsNull = true →
          (RESPValue.mk BulkString [] 0 [] true).Str = [])) :=
  ⟨by rfl,
    (C16_decoded_fields [36, 45, 49, 13, 10] [] (.mk BulkString [] 0 [] true) (by rfl)).2.2⟩

/-- C17: `Serialize` depends only on the fields meaningful for the tag.  Two
values with the same tag have the same output when they agree on `Str` (tag
SimpleString), always (tag Error), when they agree on `Num` (tag Integer),
when they agree on `IsNull` and, if not null, on `Str` (tag BulkString), when
they agree on `IsNull` and, if not null, on the elements (tag Array). -/
theorem C17_meaningful_fields (v w : RESPValue) (htag : v.Typ = w.Typ) :
    (v.Typ = SimpleString → v.Str = w.Str → Serialize v = Serialize w) ∧
    (v.Typ = Error → Serialize v = Serialize w) ∧
    (v.Typ = Integer → v.Num = w.Num → Serialize v = Serialize w) ∧
    (v.Typ = BulkString → v.IsNull = w.IsNull → (v.IsNull = false → v.Str = w.Str) →
      Serialize v = Serialize w) ∧
    (v.Typ = Array → v.IsNull = w.IsNull → (v.IsNull = false → v.Array = w.Array) →
      Serialize v = Serialize w) := by
  obtain ⟨t1, s1, n1, a1, b1⟩ := v
  obtain ⟨t2, s2, n2, a2, b2⟩ := w
  simp only [RESPValue.Typ, RESPValue.Str, RESPValue.Num, RESPValue.Array,
    RESPValue.IsNull] at *
  subst htag
  refine ⟨?_, ?_, ?_, ?_, ?_⟩
  · rintro rfl rfl
    rw [Serialize_simple, Serialize_simple]
  · rintro rfl
    rw [Serialize_error, Serialize_error]
  · rintro rfl rfl
    rw [Serialize_integer, Serialize_integer]
  · rintro rfl rfl hs
    cases b1
    · rw [Serialize_bulk, Serialize_bulk, hs rfl]
    · rw [Serialize_bulk_null, Serialize_bulk_null]
  · rintro rfl rfl ha
    cases b1
    · rw [Serialize_array, Serialize_array, ha rfl]
    · rw [Serialize_array_null, Serialize_array_null]

/-- C17 at two null BulkStrings that differ in `Str`, `Num` and `Array`. -/
theorem C17_meaningful_fields_witness :
    Serialize (.mk BulkString [97, 98] 7 [.mk Integer [] 1 [] false] true) =
      Serialize (.mk BulkString [] 0 [] true) :=
  (C17_meaningful_fields (.mk BulkString [97, 98] 7 [.mk Integer [] 1 [] false] true)
    (.mk BulkString [] 0 [] true) rfl).2.2.2.1 rfl rfl (fun h => absurd h (by decide))

/-- C18, the code at the lengths `2^63 - 1` and `2^63 - 2` on the empty stream:
`length + 2` wraps around to a negative number, `make` panics, and no failure
is returned. -/
theorem C18_readBulkString_panics :
    readBulkString [] 9223372036854775807 = .panic ∧
    readBulkString [] 9223372036854775806 = .panic :=
  ⟨by rfl, by rfl⟩

/-- C19: decoding consumes exactly one encoded value.  For every value `v` (its
`Num` an `int64`, its encoding a Go string) that is an Integer, a BulkString,
null or not, or a SimpleString whose text holds no CR and no LF, and for
every byte string `rest`, `Deserialize` on the encoding of `v` followed by
`rest` returns the tag and the payload of `v` and leaves exactly `rest`
unread. -/
theorem C19_consumes_one_value (v : RESPValue) (rest : List Byte) (hnum : IsInt64 v.Num)
    (hstr : IsGoString (Serialize v))
    (htag : v.Typ = Integer ∨ v.Typ = BulkString ∨
      (v.Typ = SimpleString ∧ (13 : Byte) ∉ v.Str ∧ (10 : Byte) ∉ v.Str)) :
    ∃ w, Deserialize (Serialize v ++ rest) = .ret ((some w, none), rest) ∧
      w.Typ = v.Typ ∧
      (v.Typ = Integer → w.Num = v.Num) ∧
      (v.Typ = SimpleString → w.Str = v.Str) ∧
      (v.Typ = BulkString → w.IsNull = v.IsNull ∧ (v.IsNull = false → w.Str = v.Str)) := by
  obtain ⟨typ, str, num, arr, isNull⟩ := v
  simp only [RESPValue.IsNull, RESPValue.Num, RESPValue.Typ, RESPValue.Str] at *
  rcases htag with rfl | rfl | ⟨rfl, h13, h10⟩
  · refine ⟨.mk Integer [] num [] false, ?_, rfl, fun _ => rfl, ?_, ?_⟩
    · rw [Serialize_integer]
      exact Deserialize_formatInt num hnum rest
    · intro h; exact absurd h (by decide)
    · intro h; exact absurd h (by decide)
  · cases isNull
    · refine ⟨.mk BulkString str 0 [] false, ?_, rfl, ?_, ?_, fun _ => ⟨rfl, fun _ => rfl⟩⟩
      · rw [Serialize_bulk]
        exact Deserialize_bulk_payload str CRLF rest rfl (length_add_two_lt str num arr hstr)
      · intro h; exact absurd h (by decide)
      · intro h; exact absurd h (by decide)
    · refine ⟨.mk BulkString [] 0 [] true, ?_, rfl, ?_, ?_, fun _ => ⟨rfl, ?_⟩⟩
      · rw [Serialize_bulk_null]
        exact Deserialize_bulk_null rest
      · intro h; exact absurd h (by decide)
      · intro h; exact absurd h (by decide)
      · intro h; exact absurd h (by decide)
  · refine ⟨.mk SimpleString str 0 [] false, ?_, rfl, ?_, fun _ => rfl, ?_⟩
    · rw [Serialize_simple]
      exact Deserialize_line 43 (Or.inl rfl) str rest h10
        (fun e => h13 (List.mem_of_getLast?_eq_some e))
    · intro h; exact absurd h (by decide)
    · intro h; exact absurd h (by decide)

/-- C19 at the BulkString `ping` followed by the bytes `+OK` CR LF. -/
theorem C19_consumes_one_value_witness :
    ∃ w, Deserialize (Serialize (.mk BulkString [112, 105, 110, 103] 0 [] false) ++
        [43, 79, 75, 13, 10]) = .ret ((some w, none), [43, 79, 75, 13, 10]) ∧
      w.Typ = BulkString ∧
      (BulkString = Integer → w.Num = 0) ∧
      (BulkString = SimpleString → w.Str = [112, 105, 110, 103]) ∧
      (BulkString = BulkString →
        w.IsNull = false ∧ (false = false → w.Str = [112, 105, 110, 103])) :=
  C19_consumes_one_value (.mk BulkString [112, 105, 110, 103] 0 [] false)
    [43, 79, 75, 13, 10] (by decide) (by decide) (Or.inr (Or.inl rfl))

/-! ## Injectivity of the encoding -/

/-- Two lines without CR, each followed by CR LF and more bytes: equal streams
have equal lines and equal remainders. -/
theorem line_inj : ∀ (a b r s : List Byte), (13 : Byte) ∉ a → (13 : Byte) ∉ b →
    a ++ CRLF ++ r = b ++ CRLF ++ s → a = b ∧ r = s
  | [], [], r, s, _, _, h => by simpa [CRLF] using h
  | [], y :: b, r, s, _, hb, h => by
    simp only [CRLF, List.nil_append, List.cons_append, List.cons.injEq] at h
    exact absurd (h.1 ▸ List.mem_cons_self _ _) hb
  | x :: a, [], r, s, ha, _, h => by
    simp only [CRLF, List.nil_append, List.cons_append, List.cons.injEq] at h
    exact absurd (h.1 ▸ List.mem_cons_self _ _) ha
  | x :: a, y :: b, r, s, ha, hb, h => by
    simp only [List.cons_append, List.cons.injEq] at h
    obtain ⟨rfl, h⟩ := h
    obtain ⟨rfl, hrs⟩ := line_inj a b r s (fun e => ha (List.mem_cons_of_mem _ e))
      (fun e => hb (List.mem_cons_of_mem _ e)) h
    exact ⟨rfl, hrs⟩

theorem formatInt_no_CR (n : Int) : (13 : Byte) ∉ formatInt n := by
  intro h
  rcases formatInt_bytes n 13 h with h | h
  · exact (isDigit_ne h).2.1 rfl
  · exact absurd h (by decide)

theorem formatInt_inj {n m : Int} (h : formatInt n = formatInt m) : n = m :=
  isSignedDecimal_unique (isSignedDecimal_formatInt n) (h ▸ isSignedDecimal_formatInt m)

/-- Two encoded count or number lines, each followed by more bytes. -/
theorem formatInt_line_inj (n m : Int) (r s : List Byte)
    (h : formatInt n ++ CRLF ++ r = formatInt m ++ CRLF ++ s) : n = m ∧ r = s := by
  obtain ⟨h1, h2⟩ := line_inj _ _ r s (formatInt_no_CR n) (formatInt_no_CR m) h
  exact ⟨formatInt_inj h1, h2⟩

theorem Serialize_wf_head (v : RESPValue) (hv : WellFormed v) :
    ∃ tl, Serialize v = v.Typ :: tl := by
  obtain ⟨typ, str, num, arr, isNull⟩ := v
  rw [WellFormed] at hv
  simp only [RESPValue.Typ]
  rcases hv with rfl | rfl | ⟨rfl, -, -⟩ | ⟨rfl, -⟩
  · exact ⟨_, by rw [Serialize_integer]; rfl⟩
  · cases isNull
    · exact ⟨_, by rw [Serialize_bulk]; rfl⟩
    · exact ⟨_, by rw [Serialize_bulk_null]; rfl⟩
  · exact ⟨_, by rw [Serialize_simple]; rfl⟩
  · cases isNull
    · exact ⟨_, by rw [Serialize_array]; rfl⟩
    · exact ⟨_, by rw [Serialize_array_null]; rfl⟩

theorem null_line_ne (n : Nat) (r s : List Byte) :
    formatInt (n : Int) ++ CRLF ++ r ≠ [45, 49] ++ CRLF ++ s := by
  intro h
  have h1 : formatInt (-1) = [45, 49] := by decide
  rw [← h1] at h
  have := (formatInt_line_inj _ _ r s h).1
  omega

/-- One value of the induction for `Serialize`: given the statement for the
elements of the first value, two well-formed values whose encodings, each
followed by more bytes, make the same stream are the same on the meaningful
fields, and the bytes that follow are the same. -/
theorem Serialize_prefix_step (t1 : Byte) (s1 : List Byte) (n1 : Int) (a1 : List RESPValue)
    (b1 : Bool) (t2 : Byte) (s2 : List Byte) (n2 : Int) (a2 : List RESPValue) (b2 : Bool)
    (r s : List Byte)
    (IH : ∀ (ys : List RESPValue) (r s : List Byte), WellFormedList a1 → WellFormedList ys →
      a1.length = ys.length → serializeItems a1 ++ r = serializeItems ys ++ s →
      SameFieldsList a1 ys ∧ r = s)
    (hv : WellFormed (.mk t1 s1 n1 a1 b1)) (hw : WellFormed (.mk t2 s2 n2 a2 b2))
    (h : Serialize (.mk t1 s1 n1 a1 b1) ++ r = Serialize (.mk t2 s2 n2 a2 b2) ++ s) :
    SameFields (.mk t1 s1 n1 a1 b1) (.mk t2 s2 n2 a2 b2) ∧ r = s := by
  have ht : t1 = t2 := by
    obtain ⟨tl1, e1⟩ := Serialize_wf_head _ hv
    obtain ⟨tl2, e2⟩ := Serialize_wf_head _ hw
    rw [e1, e2] at h
    exact (List.cons.inj h).1
  subst ht
  rw [WellFormed] at hv hw
  rw [SameFields]
  rcases hv with rfl | rfl | ⟨rfl, h13, h10⟩ | ⟨rfl, hl1⟩
  · rw [Serialize_integer, Serialize_integer] at h
    have h1 : formatInt n1 ++ CRLF ++ r = formatInt n2 ++ CRLF ++ s := by simpa using h
    obtain ⟨rfl, rfl⟩ := formatInt_line_inj _ _ _ _ h1
    simp [Integer, SimpleString, BulkString, Array]
  · cases b1 <;> cases b2
    · rw [Serialize_bulk, Serialize_bulk] at h
      have h1 : formatInt s1.length ++ CRLF ++ (s1 ++ CRLF ++ r) =
          formatInt s2.length ++ CRLF ++ (s2 ++ CRLF ++ s) := by simpa using h
      obtain ⟨hlen, h2⟩ := formatInt_line_inj _ _ _ _ h1
      have hlen1 : s1.length = s2.length := by omega
      rw [List.append_assoc, List.append_assoc] at h2
      obtain ⟨rfl, h3⟩ := List.append_inj h2 hlen1
      have h4 : r = s := by simpa using h3
      subst h4
      simp [Integer, SimpleString, BulkString, Array]
    · rw [Serialize_bulk, Serialize_bulk_null] at h
      have h1 : formatInt s1.length ++ CRLF ++ (s1 ++ CRLF ++ r) = [45, 49] ++ CRLF ++ s := by
        simpa [CRLF] using h
      exact absurd h1 (null_line_ne _ _ _)
    · rw [Serialize_bulk_null, Serialize_bulk] at h
      have h1 : formatInt s2.length ++ CRLF ++ (s2 ++ CRLF ++ s) = [45, 49] ++ CRLF ++ r := by
        simpa [CRLF] using h.symm
      exact absurd h1 (null_line_ne _ _ _)
    · rw [Serialize_bulk_null, Serialize_bulk_null] at h
      have h4 : r = s := by simpa using h
      subst h4
      simp [Integer, SimpleString, BulkString, Array]
  · rcases hw with hw | hw | ⟨-, h13b, h10b⟩ | ⟨hw, -⟩
    · exact absurd hw (by decide)
    · exact absurd hw (by decide)
    · rw [Serialize_simple, Serialize_simple] at h
      have h1 : s1 ++ CRLF ++ r = s2 ++ CRLF ++ s := by simpa using h
      obtain ⟨rfl, rfl⟩ := line_inj _ _ _ _ h13 h13b h1
      simp [Integer, SimpleString, BulkString, Array]
    · exact absurd hw (by decide)
  · rcases hw with hw | hw | ⟨hw, -⟩ | ⟨-, hl2⟩
    · exact absurd hw (by decide)
    · exact absurd hw (by decide)
    · exact absurd hw (by decide)
    · cases b1 <;> cases b2
      · rw [Serialize_array, Serialize_array, ← serializeItems_eq, ← serializeItems_eq] at h
        have h1 : formatInt a1.length ++ CRLF ++ (serializeItems a1 ++ r) =
            formatInt a2.length ++ CRLF ++ (serializeItems a2 ++ s) := by simpa using h
        obtain ⟨hlen, h2⟩ := formatInt_line_inj _ _ _ _ h1
        have hlen1 : a1.length = a2.length := by omega
        obtain ⟨hsame, hrs⟩ := IH a2 r s hl1 hl2 hlen1 h2
        subst hrs
        simp [Integer, SimpleString, BulkString, Array, hsame]
      · rw [Serialize_array, Serialize_array_null] at h
        have h1 : formatInt a1.length ++ CRLF ++ ((a1.map Serialize).flatten ++ r) =
            [45, 49] ++ CRLF ++ s := by simpa [CRLF] using h
        exact absurd h1 (null_line_ne _ _ _)
      · rw [Serialize_array_null, Serialize_array] at h
        have h1 : formatInt a2.length ++ CRLF ++ ((a2.map Serialize).flatten ++ s) =
            [45, 49] ++ CRLF ++ r := by simpa [CRLF] using h.symm
        exact absurd h1 (null_line_ne _ _ _)
      · rw [Serialize_array_null, Serialize_array_null] at h
        have h4 : r = s := by simpa using h
        subst h4
        simp [Integer, SimpleString, BulkString, Array]

mutual
/-- The encoding of well-formed values is injective up to the meaningful fields
and no encoding is a proper beginning of another one. -/
theorem Serialize_prefix_free : ∀ (v w : RESPValue) (r s : List Byte),
    WellFormed v → WellFormed w → Serialize v ++ r = Serialize w ++ s →
    SameFields v w ∧ r = s
  | .mk t1 s1 n1 a1 b1, .mk t2 s2 n2 a2 b2, r, s, hv, hw, h =>
    Serialize_prefix_step t1 s1 n1 a1 b1 t2 s2 n2 a2 b2 r s
      (fun ys r s => serializeItems_prefix_free a1 ys r s) hv hw h
/-- The same for the encodings of two lists of equally many values. -/
theorem serializeItems_prefix_free : ∀ (xs ys : List RESPValue) (r s : List Byte),
    WellFormedList xs → WellFormedList ys → xs.length = ys.length →
    serializeItems xs ++ r = serializeItems ys ++ s → SameFieldsList xs ys ∧ r = s
  | [], [], r, s, _, _, _, h => by
    simp only [serializeItems, List.nil_append] at h
    exact ⟨by rw [SameFieldsList]; trivial, h⟩
  | [], _ :: _, _, _, _, _, hlen, _ => by simp at hlen
  | _ :: _, [], _, _, _, _, hlen, _ => by simp at hlen
  | x :: xs, y :: ys, r, s, hx, hy, hlen, h => by
    rw [WellFormedList] at hx hy
    simp only [serializeItems, List.append_assoc] at h
    obtain ⟨h1, h2⟩ := Serialize_prefix_free x y _ _ hx.1 hy.1 h
    obtain ⟨h3, h4⟩ := serializeItems_prefix_free xs ys r s hx.2 hy.2
      (by simpa using hlen) h2
    exact ⟨by rw [SameFieldsList]; exact ⟨h1, h3⟩, h4⟩
end

/-- C20: `Serialize` is injective on well-formed values and their encoding is
prefix-free.  For two values built only from Integer, BulkString, SimpleString
with a text free of CR and LF, and Array of such values: equal encodings mean
the same tag and the same meaningful fields, element by element for arrays;
and when the two encodings, each followed by more bytes, make the same stream,
the bytes that follow are the same. -/
theorem C20_serialize_injective (v w : RESPValue) (hv : WellFormed v) (hw : WellFormed w) :
    (Serialize v = Serialize w → SameFields v w) ∧
    (∀ r s : List Byte, Serialize v ++ r = Serialize w ++ s → r = s) := by
  constructor
  · intro h
    exact (Serialize_prefix_free v w [] [] hv hw (by rw [h])).1
  · intro r s h
    exact (Serialize_prefix_free v w r s hv hw h).2

/-- C20 at two arrays of one Integer `5` that differ only in fields without
meaning for their tags. -/
theorem C20_serialize_injective_witness :
    (Serialize (.mk Array [] 0 [.mk Integer [] 5 [] false] false) =
        Serialize (.mk Array [120] 9 [.mk Integer [121] 5 [] true] false) →
      SameFields (.mk Array [] 0 [.mk Integer [] 5 [] false] false)
        (.mk Array [120] 9 [.mk Integer [121] 5 [] true] false)) ∧
    (∀ r s : List Byte,
      Serialize (.mk Array [] 0 [.mk Integer [] 5 [] false] false) ++ r =
        Serialize (.mk Array [120] 9 [.mk Integer [121] 5 [] true] false) ++ s → r = s) :=
  C20_serialize_injective (.mk Array [] 0 [.mk Integer [] 5 [] false] false)
    (.mk Array [120] 9 [.mk Integer [121] 5 [] true] false)
    (Or.inr (Or.inr (Or.inr ⟨rfl, Or.inl rfl, trivial⟩)))
    (Or.inr (Or.inr (Or.inr ⟨rfl, Or.inl rfl, trivial⟩)))

end Resp
